import Mathlib

/-!
# WSPR encoder (`rev0/firmware/wspr.cpp`)

A shallow embedding of the WSPR encoding library and a verification of its
specification.

Conventions of the embedding.

* A `char` or `uint8_t` is a natural number (a byte, `0..255`); a `uint32_t` is a
  natural number reduced modulo `2^32` after each operation that can overflow.
  Expressions the C code evaluates in `int` or in mixed signed and unsigned
  arithmetic are evaluated in `Int` and reduced when they are stored in an unsigned
  variable.
* An array is a `List Nat` of the declared length; reads use `List.getD`, writes
  use `List.set`.  The accesses whose index depends on the length of a string
  (`strcpy` into a local buffer, the stores of `CallSignHash`, `strlen` of a buffer
  that may hold no terminator) are fallible and return `none` when they leave the
  array; the other accesses are in bounds for arrays of the declared length, which
  the theorems assume.
* A local variable that the code does not initialise starts with indeterminate
  contents: these are an explicit parameter (`Locals`), and results are stated for
  every value of it.
* The `ctype.h` functions are those of the "C" locale.
* `Serial.print` has no effect on the values computed and is left out.
-/

namespace WSPR

/-! ## Machine arithmetic and C library -/

/-- Reduction of an integer to `uint8_t`. -/
def u8 (x : Int) : Nat := (x % 256).toNat

/-- Reduction of an integer to `uint32_t`. -/
def u32 (x : Int) : Nat := (x % 4294967296).toNat

/-- C `isdigit`. -/
def isdigit (c : Nat) : Bool := decide (48 ≤ c) && decide (c ≤ 57)

/-- C `isupper`. -/
def isupper (c : Nat) : Bool := decide (65 ≤ c) && decide (c ≤ 90)

/-- C `toupper`. -/
def toupper (c : Nat) : Nat := if 97 ≤ c ∧ c ≤ 122 then c - 32 else c

/-- The characters of a C string: everything before the first NUL. -/
def cstr (p : List Nat) : List Nat := p.takeWhile (fun ch => ch != 0)

/-- C `strlen`. -/
def strlen (p : List Nat) : Nat := (cstr p).length

/-- C `strlen` of a declared array: fails when the array holds no NUL. -/
def strlenBuf (buf : List Nat) : Option Nat :=
  if strlen buf < buf.length then some (strlen buf) else none

/-- C `strcpy(dst, src)`: fails when string and terminator do not fit in `dst`. -/
def strcpy (dst src : List Nat) : Option (List Nat) :=
  if strlen src + 1 ≤ dst.length then
    some (cstr src ++ 0 :: dst.drop (strlen src + 1))
  else none

/-- C `memcpy(dst, src, n)`. -/
def memcpy (dst src : List Nat) (n : Nat) : List Nat := src.take n ++ dst.drop n

/-- An uninitialised array of `n` bytes with indeterminate contents `f`. -/
def uninit (f : Nat → Nat) (n : Nat) : List Nat := (List.range n).map f

/-- The text of a string literal as bytes. -/
def str (s : String) : List Nat := s.toList.map Char.toNat

/-! ## Data -/

/-- `WSPR_SYMBOL_COUNT` of `wspr.h`. -/
def WSPR_SYMBOL_COUNT : Nat := 162

/-- The fields of `S_WSPRData` (the global `WSPRData`) that the encoder reads. -/
structure S_WSPRData where
  /-- `char Prefix[4]` -/
  Prefix : List Nat
  /-- `uint8_t Sufix` -/
  Sufix : Nat
  /-- `uint8_t SufixPrefix` -/
  SufixPrefix : Nat
  /-- `char MaidenHead6[7]` -/
  MaidenHead6 : List Nat

/-- The data members of `class WSPR`. -/
structure Obj where
  /-- `char callsign[7]` -/
  callsign : List Nat
  /-- `char locator[5]` -/
  locator : List Nat
  /-- `uint8_t power` -/
  power : Nat

/-- Indeterminate initial contents of the automatic variables of `encode` and of
the functions it calls. -/
structure Locals where
  /-- `char call_[7]` of `encode` -/
  call_ : Nat → Nat
  /-- `char loc_[5]` of `encode` -/
  loc_ : Nat → Nat
  /-- `uint32_t n` of `encode` -/
  n : Nat
  /-- `uint32_t m` of `encode` -/
  m : Nat
  /-- `uint8_t c[11]` of `encode` -/
  c : Nat → Nat
  /-- `uint8_t s[WSPR_SYMBOL_COUNT]` of `encode` -/
  s : Nat → Nat
  /-- `uint8_t d[WSPR_SYMBOL_COUNT]` of `interleave` -/
  d : Nat → Nat
  /-- `char CallWithSuPrefix[11]` of `CallSignHash`, and the memory after it -/
  CallWithSuPrefix : Nat → Nat

/-! ## Character codec -/

/-- `WSPR::code`. -/
def code (c : Nat) : Nat :=
  if isdigit c then u8 ((c : Int) - 48)
  else if c = 32 then 36
  else if 65 ≤ c ∧ c ≤ 90 then u8 ((c : Int) - 55)
  else 255

/-- `WSPR::encodeChar`. -/
def encodeChar (Character : Nat) : Nat :=
  if Character = 32 then 36
  else if isdigit Character then u8 ((Character : Int) - 48)
  else u8 (10 + ((Character : Int) - 65))

/-! ## Message preparation -/

/-- The first statement of `WSPR::message_prep`: pad with a leading space when the
character at index 1 is a digit and the one at index 2 an uppercase letter. -/
def prepShift (call : List Nat) : List Nat :=
  if isdigit (call.getD 1 0) && isupper (call.getD 2 0) then
    let call := call.set 5 (call.getD 4 0)
    let call := call.set 4 (call.getD 3 0)
    let call := call.set 3 (call.getD 2 0)
    let call := call.set 2 (call.getD 1 0)
    let call := call.set 1 (call.getD 0 0)
    call.set 0 32
  else call

/-- Body of the call sign loop of `WSPR::message_prep`. -/
def prepCallStep (call : List Nat) (i : Nat) : List Nat :=
  let call := call.set i (toupper (call.getD i 0))
  if !(isdigit (call.getD i 0) || isupper (call.getD i 0)) then
    let call := call.set i 32
    if i = 4 then call.set 5 32 else call
  else call

/-- Body of the locator loop of `WSPR::message_prep`. -/
def prepLocStep (loc : List Nat) (i : Nat) : List Nat :=
  let loc := loc.set i (toupper (loc.getD i 0))
  if !(isdigit (loc.getD i 0) || (decide (65 ≤ loc.getD i 0) && decide (loc.getD i 0 ≤ 82))) then
    memcpy loc [65, 65, 48, 48, 0] 5
  else loc

/-- Result of `WSPR::message_prep`: the two buffers it edits in place and the
object whose members it stores. -/
structure Prep where
  /-- the buffer `call` on return -/
  call : List Nat
  /-- the buffer `loc` on return -/
  loc : List Nat
  /-- the object on return -/
  obj : Obj

/-- `WSPR::message_prep`. -/
def message_prep (o : Obj) (call loc : List Nat) (dbm : Nat) : Prep :=
  let call := prepShift call
  let call := (List.range 6).foldl prepCallStep call
  let callsign := memcpy o.callsign call 6
  let loc := (List.range 4).foldl prepLocStep loc
  let locator := memcpy o.locator loc 4
  { call := call, loc := loc, obj := { callsign := callsign, locator := locator, power := dbm } }

/-! ## Bit packing -/

/-- The value `n` that `encode` computes from six characters (message types 1
and 2 pass `callsign[0..5]`, type 3 passes `MaidenHead6[1,2,3,4,5,0]`). -/
def packN (c0 c1 c2 c3 c4 c5 : Nat) : Nat :=
  let n := code c0
  let n := u32 (n * 36 + code c1)
  let n := u32 (n * 10 + code c2)
  let n := u32 (n * 27 + ((code c3 : Int) - 10))
  let n := u32 (n * 27 + ((code c4 : Int) - 10))
  u32 (n * 27 + ((code c5 : Int) - 10))

/-- The value `n` of message types 1 and 2. -/
def callN (callsign : List Nat) : Nat :=
  packN (callsign.getD 0 0) (callsign.getD 1 0) (callsign.getD 2 0)
    (callsign.getD 3 0) (callsign.getD 4 0) (callsign.getD 5 0)

/-- The value `m` of message type 1.  The locator term is an `int` expression; it
is evaluated exactly and reduced when it is stored in `m`. -/
def type1M (locator : List Nat) (power : Nat) : Nat :=
  let l0 : Int := locator.getD 0 0
  let l1 : Int := locator.getD 1 0
  let l2 : Int := locator.getD 2 0
  let l3 : Int := locator.getD 3 0
  let m := u32 (((179 - 10 * (l0 - 65) - (l2 - 48)) * 180) + (10 * (l1 - 65)) + (l3 - 48))
  u32 ((m * 128) + power + 64)

/-- The value `m` of message type 2. -/
def type2M (W : S_WSPRData) (power : Nat) : Nat :=
  if W.SufixPrefix ≠ 0 then
    let m := u32 (27232 + W.Sufix)
    u32 ((m * 128) + power + 2 + 64)
  else
    let m := encodeChar (W.Prefix.getD 0 0)
    let m := u32 (37 * m + encodeChar (W.Prefix.getD 1 0))
    let m := u32 (37 * m + encodeChar (W.Prefix.getD 2 0))
    if m > 32767 then
      let m := u32 ((m : Int) - 32768)
      u32 ((m * 128) + power + 66)
    else
      u32 ((m * 128) + power + 65)

/-- The value `n` of message type 3. -/
def type3N (W : S_WSPRData) : Nat :=
  packN (W.MaidenHead6.getD 1 0) (W.MaidenHead6.getD 2 0) (W.MaidenHead6.getD 3 0)
    (W.MaidenHead6.getD 4 0) (W.MaidenHead6.getD 5 0) (W.MaidenHead6.getD 0 0)

/-- The value `m` of message type 3, from the value `CallSignHash` returned. -/
def type3M (hash power : Nat) : Nat :=
  u32 (128 * (hash : Int) - power - 1 + 64)

/-- The serialisation step of `encode`: `n` and `m` into the buffer `c[11]`. -/
def serialise (c : List Nat) (n m : Nat) : List Nat :=
  let c := c.set 3 (((n &&& 0x0f) <<< 4) % 256)
  let n := n >>> 4
  let c := c.set 2 ((n &&& 0xff) % 256)
  let n := n >>> 8
  let c := c.set 1 ((n &&& 0xff) % 256)
  let n := n >>> 8
  let c := c.set 0 ((n &&& 0xff) % 256)
  let c := c.set 6 (((m &&& 0x03) <<< 6) % 256)
  let m := m >>> 2
  let c := c.set 5 ((m &&& 0xff) % 256)
  let m := m >>> 8
  let c := c.set 4 ((m &&& 0xff) % 256)
  let m := m >>> 8
  let c := c.set 3 (c.getD 3 0 ||| ((m &&& 0x0f) % 256))
  let c := c.set 7 0
  let c := c.set 8 0
  let c := c.set 9 0
  c.set 10 0

/-! ## Convolutional encoder -/

/-- The parity loop of `convolve`: `parity_bit` after the 32 iterations that
start from `reg_temp`. -/
def parity32 (reg_temp : Nat) : Nat :=
  ((List.range 32).foldl
    (fun (p : Nat × Nat) (_ : Nat) => ((p.1 ^^^ (p.2 &&& 0x01)) % 256, p.2 >>> 1))
    (0, reg_temp)).1

/-- The variables of `convolve` that live across iterations. -/
structure Conv where
  /-- `uint32_t reg_0` -/
  reg_0 : Nat
  /-- `uint32_t reg_1` -/
  reg_1 : Nat
  /-- `uint8_t bit_count` -/
  bit_count : Nat
  /-- the output array `s` -/
  s : List Nat

/-- Body of the inner loop of `convolve` up to the test of `bit_count`. -/
def convBit (c : List Nat) (i j : Nat) (v : Conv) : Conv :=
  let input_bit := if ((c.getD i 0 <<< j) &&& 0x80) = 0x80 then 1 else 0
  let reg_0 := (v.reg_0 <<< 1) % 4294967296
  let reg_1 := (v.reg_1 <<< 1) % 4294967296
  let reg_0 := reg_0 ||| input_bit
  let reg_1 := reg_1 ||| input_bit
  let s := v.s.set v.bit_count (parity32 (reg_0 &&& 0xf2d05351))
  let bit_count := (v.bit_count + 1) % 256
  let s := s.set bit_count (parity32 (reg_1 &&& 0xe4613c47))
  let bit_count := (bit_count + 1) % 256
  { reg_0 := reg_0, reg_1 := reg_1, bit_count := bit_count, s := s }

/-- The inner loop of `convolve` over the remaining values of `j`; it is left
early when `bit_count >= bit_size`. -/
def convInner (c : List Nat) (bit_size i : Nat) : List Nat → Conv → Conv
  | [], v => v
  | j :: js, v =>
    let v := convBit c i j v
    if v.bit_count ≥ bit_size then v else convInner c bit_size i js v

/-- `WSPR::convolve`: the array `s` on return. -/
def convolve (c s : List Nat) (message_size bit_size : Nat) : List Nat :=
  ((List.range message_size).foldl
    (fun v i => convInner c bit_size i (List.range 8) v)
    { reg_0 := 0, reg_1 := 0, bit_count := 0, s := s }).s

/-! ## Interleaver -/

/-- The bit reversal loop of `interleave`: `rev` for the index `j`. -/
def bitrev (j : Nat) : Nat :=
  ((List.range 8).foldl
    (fun (p : Nat × Nat) (k : Nat) =>
      (if p.2 &&& 0x01 ≠ 0 then (p.1 ||| (1 <<< (7 - k))) % 256 else p.1, p.2 >>> 1))
    (0, j)).1

/-- The loop of `interleave` over the remaining values of `j`, on the pair
`(d, i)`; it is left early when `i >= WSPR_SYMBOL_COUNT`. -/
def interleaveLoop (s : List Nat) : List Nat → List Nat × Nat → List Nat × Nat
  | [], v => v
  | j :: js, v =>
    let rev := bitrev j
    let v := if rev < WSPR_SYMBOL_COUNT then (v.1.set rev (s.getD v.2 0), (v.2 + 1) % 256) else v
    if v.2 ≥ WSPR_SYMBOL_COUNT then v else interleaveLoop s js v

/-- `WSPR::interleave`: the array `s` on return; `d` is the initial content of the
local array. -/
def interleave (d s : List Nat) : List Nat :=
  let d := (interleaveLoop s (List.range 255) (d, 0)).1
  memcpy s d WSPR_SYMBOL_COUNT

/-! ## Sync vector -/

/-- The table `sync_vector` of `merge_sync_vector`. -/
def sync_vector : List Nat :=
  [ 1, 1, 0, 0, 0, 0, 0, 0, 1, 0, 0, 0, 1, 1, 1, 0, 0, 0, 1, 0, 0,
    1, 0, 1, 1, 1, 1, 0, 0, 0, 0, 0, 0, 0, 1, 0, 0, 1, 0, 1, 0, 0,
    0, 0, 0, 0, 1, 0, 1, 1, 0, 0, 1, 1, 0, 1, 0, 0, 0, 1, 1, 0, 1,
    0, 0, 0, 0, 1, 1, 0, 1, 0, 1, 0, 1, 0, 1, 0, 0, 1, 0, 0, 1, 0,
    1, 1, 0, 0, 0, 1, 1, 0, 1, 0, 1, 0, 0, 0, 1, 0, 0, 0, 0, 0, 1,
    0, 0, 1, 0, 0, 1, 1, 1, 0, 1, 1, 0, 0, 1, 1, 0, 1, 0, 0, 0, 1,
    1, 1, 0, 0, 0, 0, 0, 1, 0, 1, 0, 0, 1, 1, 0, 0, 0, 0, 0, 0, 0,
    1, 1, 0, 1, 0, 1, 1, 0, 0, 0, 1, 1, 0, 0, 0 ]

/-- `WSPR::merge_sync_vector`: the array `symbols` on return. -/
def merge_sync_vector (g symbols : List Nat) : List Nat :=
  (List.range WSPR_SYMBOL_COUNT).foldl
    (fun symbols i => symbols.set i ((sync_vector.getD i 0 + (2 * g.getD i 0)) % 256))
    symbols

/-! ## Call sign hash -/

/-- The `rot` of `CallSignHash` on 32-bit values. -/
def rot (x k : Nat) : Nat := ((x <<< k) % 4294967296) ||| (x >>> (32 - k))

/-- 32-bit subtraction. -/
def sub32 (x y : Nat) : Nat := u32 ((x : Int) - y)

/-- The word `k[i]` of `CallSignHash`: four bytes of `mem`, little-endian. -/
def word (mem : Nat → Nat) (i : Nat) : Nat :=
  mem (4 * i) + mem (4 * i + 1) * 256 + mem (4 * i + 2) * 65536 + mem (4 * i + 3) * 16777216

/-- The mixing stage of `CallSignHash` (from `a = b = c = ...` to `return c`), on
the memory `mem` that starts at `CallWithSuPrefix`. -/
def hashMix (mem : Nat → Nat) (Length : Nat) : Nat :=
  let a := (0xdeadbeef + Length + 146) % 4294967296
  let b := a
  let c := a
  let k := word mem
  let abc : Nat × Nat × Nat :=
    if Length = 10 then ((a + k 0) % 4294967296, (b + k 1) % 4294967296, (c + (k 2 &&& 0xffff)) % 4294967296)
    else if Length = 9 then ((a + k 0) % 4294967296, (b + k 1) % 4294967296, (c + (k 2 &&& 0xff)) % 4294967296)
    else if Length = 8 then ((a + k 0) % 4294967296, (b + k 1) % 4294967296, c)
    else if Length = 7 then ((a + k 0) % 4294967296, (b + (k 1 &&& 0xffffff)) % 4294967296, c)
    else if Length = 6 then ((a + k 0) % 4294967296, (b + (k 1 &&& 0xffff)) % 4294967296, c)
    else if Length = 5 then ((a + k 0) % 4294967296, (b + (k 1 &&& 0xff)) % 4294967296, c)
    else if Length = 4 then ((a + k 0) % 4294967296, b, c)
    else if Length = 3 then ((a + (k 0 &&& 0xffffff)) % 4294967296, b, c)
    else (a, b, c)
  let a := abc.1
  let b := abc.2.1
  let c := abc.2.2
  let c := c ^^^ b
  let c := sub32 c (rot b 14)
  let a := a ^^^ c
  let a := sub32 a (rot c 11)
  let b := b ^^^ a
  let b := sub32 b (rot a 25)
  let c := c ^^^ b
  let c := sub32 c (rot b 16)
  let a := a ^^^ c
  let a := sub32 a (rot c 4)
  let b := b ^^^ a
  let b := sub32 b (rot a 14)
  let c := c ^^^ b
  let c := sub32 c (rot b 24)
  c &&& 0xFFFF

/-- A write `buf[i] = v` into a declared array: fails when `i` is out of bounds. -/
def store (buf : List Nat) (i v : Nat) : Option (List Nat) :=
  if i < buf.length then some (buf.set i v) else none

/-- The loop `while (Number > 9)` of `CallSignHash`, on `(TenDigit, Number)`; the
fuel bounds the number of iterations, which is at most 25 for a byte. -/
def tens : Nat → Nat × Nat → Nat × Nat
  | 0, v => v
  | fuel + 1, v => if v.2 > 9 then tens fuel ((v.1 + 1) % 256, v.2 - 10) else v

/-- The first part of `CallSignHash`: the buffer `CallWithSuPrefix` when the mixing
stage starts.  `buf0` is the initial content of the array. -/
def composite (W : S_WSPRData) (buf0 call : List Nat) : Option (List Nat) := do
  let Length := strlen call % 256
  let buf ← strcpy buf0 call
  if W.SufixPrefix ≠ 0 then
    let buf ← store buf Length 47
    if W.Sufix < 36 then
      let buf ← store buf (Length + 2) 0
      if W.Sufix < 10 then
        store buf (Length + 1) (u8 (48 + W.Sufix))
      else
        store buf (Length + 1) (u8 (65 + ((W.Sufix : Int) - 10)))
    else
      let Number := u8 ((W.Sufix : Int) - 36)
      let tn := tens 26 (0, Number)
      let buf ← store buf (Length + 1) (u8 (48 + tn.1))
      let buf ← store buf (Length + 2) (u8 (48 + tn.2))
      store buf (Length + 3) 0
  else
    let buf ← store buf 0 (W.Prefix.getD 0 0)
    let buf ← store buf 1 (W.Prefix.getD 1 0)
    let buf ← store buf 2 (W.Prefix.getD 2 0)
    let buf ← store buf 3 47
    (List.range Length).foldlM (fun buf CharLoop => store buf (CharLoop + 4) (call.getD CharLoop 0)) buf

/-- `WSPR::CallSignHash`.  `junk` is the initial content of `CallWithSuPrefix` and
of the memory that follows it. -/
def CallSignHash (W : S_WSPRData) (junk : Nat → Nat) (call : List Nat) : Option Nat := do
  let buf ← composite W (uninit junk 11) call
  let Length ← strlenBuf buf
  some (hashMix (fun i => if i < 11 then buf.getD i 0 else junk i) Length)

/-! ## Encoder -/

/-- The bit packing `switch` of `encode`: the values `(n, m)` after it. -/
def pack (W : S_WSPRData) (o : Obj) (L : Locals) (call : List Nat) (WSPRMessageType : Nat) :
    Option (Nat × Nat) :=
  if WSPRMessageType = 1 then
    some (callN o.callsign, type1M o.locator o.power)
  else if WSPRMessageType = 2 then
    some (callN o.callsign, type2M W o.power)
  else if WSPRMessageType = 3 then
    (CallSignHash W L.CallWithSuPrefix call).map (fun h => (type3N W, type3M h o.power))
  else
    some (L.n, L.m)

/-- `WSPR::encode`: the object and the array `symbols` on return. -/
def encode (W : S_WSPRData) (o : Obj) (L : Locals) (call loc : List Nat) (dbm : Nat)
    (symbols : List Nat) (WSPRMessageType : Nat) : Option (Obj × List Nat) := do
  let call_ ← strcpy (uninit L.call_ 7) call
  let loc_ ← strcpy (uninit L.loc_ 5) loc
  let dbm_ := dbm
  let o := (message_prep o call_ loc_ dbm_).obj
  let nm ← pack W o L call WSPRMessageType
  let c := serialise (uninit L.c 11) nm.1 nm.2
  let s := convolve c (uninit L.s WSPR_SYMBOL_COUNT) 11 WSPR_SYMBOL_COUNT
  let s := interleave (uninit L.d WSPR_SYMBOL_COUNT) s
  some (o, merge_sync_vector s symbols)

/-! ## Notions used in the statements and their proofs -/

/-- Big-endian value of a byte string. -/
def beValue (c : List Nat) : Nat := c.foldl (fun acc b => acc * 256 + b) 0

/-- The character the call sign loop stores for `c`: uppercased, and a space when
that is neither a digit nor an uppercase letter. -/
def norm (c : Nat) : Nat :=
  if isdigit (toupper c) || isupper (toupper c) then toupper c else 32

/-- A locator character the locator loop accepts: a digit or a letter `A..R`. -/
def validLoc (c : Nat) : Bool := isdigit c || (decide (65 ≤ c) && decide (c ≤ 82))

/-- C `islower`. -/
def islower (c : Nat) : Bool := decide (97 ≤ c) && decide (c ≤ 122)

/-- A character of the call sign alphabet: a space, an uppercase letter or a digit. -/
def okChar (c : Nat) : Bool := decide (c = 32) || isupper c || isdigit c

/-- The call sign grammar: position 0 is a space or a digit, position 1 a space, a
letter or a digit, position 2 a digit, positions 3, 4 and 5 an uppercase letter or a
space. -/
def grammar (cs : List Nat) : Bool :=
  (decide (cs.getD 0 0 = 32) || isdigit (cs.getD 0 0)) &&
  (decide (cs.getD 1 0 = 32) || isupper (cs.getD 1 0) || isdigit (cs.getD 1 0)) &&
  isdigit (cs.getD 2 0) &&
  (isupper (cs.getD 3 0) || decide (cs.getD 3 0 = 32)) &&
  (isupper (cs.getD 4 0) || decide (cs.getD 4 0 = 32)) &&
  (isupper (cs.getD 5 0) || decide (cs.getD 5 0 = 32))

/-- An object whose members are zero, as for a static instance. -/
def obj0 : Obj := { callsign := List.replicate 7 0, locator := List.replicate 5 0, power := 0 }

/-- The part of the locator form that the width of `m` depends on: a letter `A..R`
at positions 0 and 1 and a digit at position 2. -/
def locHead (l : List Nat) : Bool :=
  (decide (65 ≤ l.getD 0 0) && decide (l.getD 0 0 ≤ 82)) &&
  (decide (65 ≤ l.getD 1 0) && decide (l.getD 1 0 ≤ 82)) &&
  isdigit (l.getD 2 0)

/-- The part of the call sign grammar that the width of `n` depends on: an
uppercase letter or a space at positions 3, 4 and 5. -/
def tailGrammar (cs : List Nat) : Bool :=
  (isupper (cs.getD 3 0) || decide (cs.getD 3 0 = 32)) &&
  (isupper (cs.getD 4 0) || decide (cs.getD 4 0 = 32)) &&
  (isupper (cs.getD 5 0) || decide (cs.getD 5 0 = 32))

/-- The global `WSPRData` with suffix code 1 selected (`K1ABC/1`). -/
def dataSuffix1 : S_WSPRData :=
  { Prefix := str "   " ++ [0], Sufix := 1, SufixPrefix := 1, MaidenHead6 := str "FN42AA" ++ [0] }

/-- Bit `t` of the buffer `c`: bytes in order, the most significant bit of a byte
first. -/
def msgBit (c : List Nat) (t : Nat) : Nat := c.getD (t / 8) 0 / 2 ^ (7 - t % 8) % 2

/-- The XOR of `b (t - k)` over all `k ≤ t` such that bit `k` of `taps` is set. -/
def tapXor (taps : Nat) (b : Nat → Nat) (t : Nat) : Nat :=
  ((List.range (t + 1)).filter (fun k => taps.testBit k)).foldl (fun acc k => acc ^^^ b (t - k)) 0

/-- The content of a 32-bit shift register that started at zero, after the input
bits `b 0, ..., b (m - 1)`. -/
def shiftReg (b : Nat → Nat) : Nat → Nat
  | 0 => 0
  | m + 1 => ((shiftReg b m <<< 1) % 4294967296) ||| b m

/-- The parity bits that `convolve` has written after `m` input bits. -/
def convOut (c : List Nat) : Nat → List Nat
  | 0 => []
  | m + 1 => convOut c m ++
      [parity32 (shiftReg (msgBit c) (m + 1) &&& 0xf2d05351),
       parity32 (shiftReg (msgBit c) (m + 1) &&& 0xe4613c47)]

/-- The variables of `convolve` after `m` input bits, for the initial array `s`. -/
def convState (c s : List Nat) (m : Nat) : Conv :=
  { reg_0 := shiftReg (msgBit c) m, reg_1 := shiftReg (msgBit c) m, bit_count := 2 * m,
    s := convOut c m ++ s.drop (2 * m) }

/-- The 162 parity bits of the specification: for each of the first 81 bits of `c`
the tap XOR of the first and of the second generator. -/
def convSpec (c : List Nat) : List Nat :=
  (List.range 162).map (fun k =>
    tapXor (if k % 2 = 0 then 0xF2D05351 else 0xE4613C47) (msgBit c) (k / 2))

/-- The XOR of `f 0, ..., f (n - 1)`. -/
def xorUpTo (f : Nat → Bool) : Nat → Bool
  | 0 => false
  | n + 1 => xor (xorUpTo f n) (f n)

/-- The loop of `interleave` run on positions instead of values: the array holds,
for each entry of `d`, the index of `s` it was copied from, if it was written. -/
def interleaveTrace : List Nat → List (Option Nat) × Nat → List (Option Nat) × Nat
  | [], v => v
  | j :: js, v =>
    let rev := bitrev j
    let v := if rev < WSPR_SYMBOL_COUNT then (v.1.set rev (some v.2), (v.2 + 1) % 256) else v
    if v.2 ≥ WSPR_SYMBOL_COUNT then v else interleaveTrace js v

/-- For each output position of `interleave`, the input index whose value it
receives. -/
def interleaveSrc : List Nat :=
  (interleaveTrace (List.range 255) (List.replicate WSPR_SYMBOL_COUNT none, 0)).1.map
    (fun o => o.getD 0)

/-- The array `d` of `interleave` described by a trace: a traced entry holds the
value of `s` at the traced index, another entry its initial value. -/
def fill (s : List Nat) (T : List (Option Nat)) (d : List Nat) : List Nat :=
  List.zipWith (fun o x => match o with
    | some k => s.getD k 0
    | none => x) T d

/-- The 162 channel symbols for the payload `c`: sync bit plus twice the
interleaved parity bit. -/
def channel (c : List Nat) : List Nat :=
  (List.range 162).map (fun i =>
    (sync_vector.getD i 0 + 2 * (convSpec c).getD (interleaveSrc.getD i 0) 0) % 256)

/-- The 162 symbols the claim lists for ` K1ABC FN42 37`. -/
def claimedK1ABC : List Nat :=
  [3,3,0,0,2,0,0,0,1,0, 2,0,1,3,1,2,2,2,1,0, 0,3,2,3,1,3,3,2,2,0, 2,0,0,0,3,2,0,1,2,3,
   2,2,0,0,2,2,3,2,1,1, 0,2,3,3,2,1,0,2,2,1, 3,2,1,2,2,2,0,3,3,0, 3,0,3,0,1,2,1,0,2,1,
   2,0,3,2,1,3,2,0,0,3, 3,2,3,0,3,2,2,0,3,0, 2,0,2,0,1,0,2,3,0,2, 1,1,1,2,3,3,0,2,3,1,
   2,1,2,2,2,1,3,3,2,0, 0,0,0,1,0,3,2,0,1,3, 2,2,2,2,2,0,0,3,3,2, 3,2,3,3,2,0,0,3,1,2,
   2,2]

/-- The 162 symbols `encode` writes for ` K1ABC FN42 37`: the claimed list with the
entry at index 146 changed from 0 to 2. -/
def symbolsK1ABC : List Nat :=
  [3,3,0,0,2,0,0,0,1,0, 2,0,1,3,1,2,2,2,1,0, 0,3,2,3,1,3,3,2,2,0, 2,0,0,0,3,2,0,1,2,3,
   2,2,0,0,2,2,3,2,1,1, 0,2,3,3,2,1,0,2,2,1, 3,2,1,2,2,2,0,3,3,0, 3,0,3,0,1,2,1,0,2,1,
   2,0,3,2,1,3,2,0,0,3, 3,2,3,0,3,2,2,0,3,0, 2,0,2,0,1,0,2,3,0,2, 1,1,1,2,3,3,0,2,3,1,
   2,1,2,2,2,1,3,3,2,0, 0,0,0,1,0,3,2,0,1,3, 2,2,2,2,2,0,2,3,3,2, 3,2,3,3,2,0,0,3,1,2,
   2,2]

/-- Automatic variables whose indeterminate contents are all `0xAA`. -/
def locals0 : Locals :=
  { call_ := fun _ => 170, loc_ := fun _ => 170, n := 2863311530, m := 2863311530,
    c := fun _ => 170, s := fun _ => 170, d := fun _ => 170, CallWithSuPrefix := fun _ => 170 }

/-- The object after the call of `message_prep` in `encode`: the local buffers hold
the two strings, their terminator and indeterminate bytes after it. -/
def prepared (o : Obj) (L : Locals) (call loc : List Nat) (dbm : Nat) : Obj :=
  (message_prep o (cstr call ++ 0 :: (uninit L.call_ 7).drop (strlen call + 1))
    (cstr loc ++ 0 :: (uninit L.loc_ 5).drop (strlen loc + 1)) dbm).obj

/-- The payload `c` of `encode` for message type 1. -/
def payload1 (o : Obj) (L : Locals) (call loc : List Nat) (dbm : Nat) : List Nat :=
  serialise (uninit L.c 11) (callN (prepared o L call loc dbm).callsign)
    (type1M (prepared o L call loc dbm).locator (prepared o L call loc dbm).power)

/-- The prefix value `p = 37*37*encodeChar(P0) + 37*encodeChar(P1) + encodeChar(P2)`. -/
def prefixValue (P : List Nat) : Nat :=
  37 * 37 * encodeChar (P.getD 0 0) + 37 * encodeChar (P.getD 1 0) + encodeChar (P.getD 2 0)

/-- The global `WSPRData` with the prefix `P` selected. -/
def dataPrefix (P : List Nat) : S_WSPRData :=
  { Prefix := P, Sufix := 0, SufixPrefix := 0, MaidenHead6 := str "FN42AA" ++ [0] }

/-- The global `WSPRData` with the suffix code `s` selected. -/
def dataSuffix (s : Nat) : S_WSPRData :=
  { Prefix := str "   " ++ [0], Sufix := s, SufixPrefix := 1, MaidenHead6 := str "FN42AA" ++ [0] }

/-- The bytewise XOR of two buffers. -/
def xorBytes (c1 c2 : List Nat) : List Nat := List.zipWith (fun x y => x ^^^ y) c1 c2

/-- The permutation of `interleave`: entry `i` is the 8-bit bit reversal of the
`i`-th smallest `j` in 0..254 whose bit reversal is below 162. -/
def interleaveDst : List Nat :=
  ((List.range 255).filter (fun j => decide (bitrev j < 162))).map bitrev

/-- The array `s` that `encode` passes to `merge_sync_vector` for the packed values
`n` and `m`: the interleaved parity stream. -/
def parityStream (L : Locals) (n m : Nat) : List Nat :=
  interleave (uninit L.d WSPR_SYMBOL_COUNT)
    (convolve (serialise (uninit L.c 11) n m) (uninit L.s WSPR_SYMBOL_COUNT) 11 WSPR_SYMBOL_COUNT)

/-- The call sign form of a well-formed type-1 message: six characters, the first a
digit, an uppercase letter or a space, the second a digit or an uppercase letter,
the third a digit, the last three an uppercase letter or a space. -/
def callForm (cs : List Nat) : Bool :=
  decide (cs.length = 6) && okChar (cs.getD 0 0) &&
  (isdigit (cs.getD 1 0) || isupper (cs.getD 1 0)) && isdigit (cs.getD 2 0) &&
  (isupper (cs.getD 3 0) || decide (cs.getD 3 0 = 32)) &&
  (isupper (cs.getD 4 0) || decide (cs.getD 4 0 = 32)) &&
  (isupper (cs.getD 5 0) || decide (cs.getD 5 0 = 32))

/-- The locator form of a well-formed type-1 message: two letters `A..R`, then two
digits. -/
def locForm (l : List Nat) : Bool :=
  decide (l.length = 4) &&
  (decide (65 ≤ l.getD 0 0) && decide (l.getD 0 0 ≤ 82)) &&
  (decide (65 ≤ l.getD 1 0) && decide (l.getD 1 0 ≤ 82)) &&
  isdigit (l.getD 2 0) && isdigit (l.getD 3 0)

/-- The text of a suffix code: one character `0..9` or `A..Z` for the codes 0..35,
and the two decimal digits of `code - 36` from code 36 on. -/
def suffixText (s : Nat) : List Nat :=
  if s < 10 then [48 + s]
  else if s < 36 then [65 + (s - 10)]
  else [48 + (s - 36) / 10, 48 + (s - 36) % 10]

/-! ## Message preparation -/

theorem length_ge_6 {c : List Nat} (h : 6 ≤ c.length) :
    ∃ a0 a1 a2 a3 a4 a5 r, c = a0 :: a1 :: a2 :: a3 :: a4 :: a5 :: r := by
  match c, h with
  | a0 :: a1 :: a2 :: a3 :: a4 :: a5 :: r, _ => exact ⟨_, _, _, _, _, _, _, rfl⟩

theorem range_6 : List.range 6 = [0, 1, 2, 3, 4, 5] := by decide
theorem range_4 : List.range 4 = [0, 1, 2, 3] := by decide


theorem getD_set_self (l : List Nat) (i x : Nat) (hi : i < l.length) :
    (l.set i x).getD i 0 = x := by
  simp [List.getD_eq_getElem?_getD, List.getElem?_set, hi]

theorem norm_ne_32 (a : Nat) (h : (isdigit (toupper a) || isupper (toupper a)) = true) :
    toupper a ≠ 32 := by
  intro h2; rw [h2] at h; revert h; decide

theorem prepCallStep_ne4 (l : List Nat) (i : Nat) (hi : i < l.length) (h4 : i ≠ 4) :
    prepCallStep l i = l.set i (norm (l.getD i 0)) := by
  unfold prepCallStep norm
  simp only [getD_set_self l i _ hi, h4, if_false]
  cases h : (isdigit (toupper (l.getD i 0)) || isupper (toupper (l.getD i 0))) <;> simp

theorem set_getD_self (l : List Nat) (i : Nat) : l.set i (l.getD i 0) = l := by
  apply List.ext_getElem?
  intro j
  rw [List.getElem?_set, List.getD_eq_getElem?_getD]
  by_cases hij : i = j
  · subst hij
    by_cases hi : i < l.length
    · simp [hi]
    · simp [hi, List.getElem?_eq_none (Nat.le_of_not_lt hi)]
  · simp [hij]

theorem norm_of_alnum (a : Nat) (h : (isdigit (toupper a) || isupper (toupper a)) = true) :
    norm a = toupper a := by
  unfold norm; rw [if_pos h]

theorem norm_of_not_alnum (a : Nat) (h : (isdigit (toupper a) || isupper (toupper a)) = false) :
    norm a = 32 := by
  unfold norm; rw [if_neg (by simp [h])]

theorem prepCallStep_4 (l : List Nat) (hi : 4 < l.length) :
    prepCallStep l 4 =
      (l.set 4 (norm (l.getD 4 0))).set 5 (if norm (l.getD 4 0) = 32 then 32 else l.getD 5 0) := by
  unfold prepCallStep
  simp only [getD_set_self l 4 _ hi, if_true]
  cases h : (isdigit (toupper (l.getD 4 0)) || isupper (toupper (l.getD 4 0)))
  · rw [norm_of_not_alnum _ h]
    simp
  · rw [norm_of_alnum _ h, if_neg (norm_ne_32 _ h),
      List.set_comm (toupper (l.getD 4 0)) (l.getD 5 0) l (show 4 ≠ 5 by decide), set_getD_self]
    simp

theorem prepCall_loop (a0 a1 a2 a3 a4 a5 : Nat) (r : List Nat) :
    (List.range 6).foldl prepCallStep (a0 :: a1 :: a2 :: a3 :: a4 :: a5 :: r) =
      norm a0 :: norm a1 :: norm a2 :: norm a3 :: norm a4 ::
        (if norm a4 = 32 then 32 else norm a5) :: r := by
  have h32 : norm 32 = 32 := by decide
  simp only [range_6, List.foldl_cons, List.foldl_nil]
  rw [prepCallStep_ne4 _ 0 (by simp) (by decide), prepCallStep_ne4 _ 1 (by simp) (by decide),
    prepCallStep_ne4 _ 2 (by simp) (by decide), prepCallStep_ne4 _ 3 (by simp) (by decide),
    prepCallStep_4 _ (by simp), prepCallStep_ne4 _ 5 (by simp) (by decide)]
  simp only [List.set_cons_zero, List.set_cons_succ, List.getD_cons_zero, List.getD_cons_succ]
  split <;> simp [*]

theorem prepShift_cons (a0 a1 a2 a3 a4 a5 : Nat) (r : List Nat) :
    prepShift (a0 :: a1 :: a2 :: a3 :: a4 :: a5 :: r) =
      if isdigit a1 && isupper a2 then 32 :: a0 :: a1 :: a2 :: a3 :: a4 :: r
      else a0 :: a1 :: a2 :: a3 :: a4 :: a5 :: r := by
  simp only [prepShift, List.set_cons_zero, List.set_cons_succ, List.getD_cons_zero,
    List.getD_cons_succ]

/-- The six characters `message_prep` stores in `callsign`, when no leading space
is inserted. -/
theorem callsign_noshift (o : Obj) (loc : List Nat) (dbm a0 a1 a2 a3 a4 a5 : Nat) (r : List Nat)
    (h : (isdigit a1 && isupper a2) = false) :
    (message_prep o (a0 :: a1 :: a2 :: a3 :: a4 :: a5 :: r) loc dbm).obj.callsign.take 6 =
      [norm a0, norm a1, norm a2, norm a3, norm a4, if norm a4 = 32 then 32 else norm a5] := by
  simp only [message_prep, prepShift_cons, h, Bool.false_eq_true, if_false, memcpy]
  rw [prepCall_loop]
  simp

/-- The six characters `message_prep` stores in `callsign`, when a leading space
is inserted. -/
theorem callsign_shift (o : Obj) (loc : List Nat) (dbm a0 a1 a2 a3 a4 a5 : Nat) (r : List Nat)
    (h : (isdigit a1 && isupper a2) = true) :
    (message_prep o (a0 :: a1 :: a2 :: a3 :: a4 :: a5 :: r) loc dbm).obj.callsign.take 6 =
      [32, norm a0, norm a1, norm a2, norm a3, if norm a3 = 32 then 32 else norm a4] := by
  simp only [message_prep, prepShift_cons, h, if_true, memcpy]
  rw [prepCall_loop]
  have h32 : norm 32 = 32 := by decide
  simp [h32]

theorem length_ge_5 {c : List Nat} (h : 5 ≤ c.length) :
    ∃ a0 a1 a2 a3 a4 r, c = a0 :: a1 :: a2 :: a3 :: a4 :: r := by
  match c, h with
  | a0 :: a1 :: a2 :: a3 :: a4 :: r, _ => exact ⟨_, _, _, _, _, _, rfl⟩

theorem prepLocStep_eq (l : List Nat) (i : Nat) (hi : i < l.length) (h5 : i < 5) :
    prepLocStep l i =
      if validLoc (toupper (l.getD i 0)) then l.set i (toupper (l.getD i 0))
      else [65, 65, 48, 48, 0] ++ l.drop 5 := by
  unfold prepLocStep validLoc memcpy
  simp only [getD_set_self l i _ hi]
  cases h : (isdigit (toupper (l.getD i 0)) ||
    (decide (65 ≤ toupper (l.getD i 0)) && decide (toupper (l.getD i 0) ≤ 82)))
  · simp [List.drop_set, h5]
  · simp

theorem prepLoc_loop (l0 l1 l2 l3 l4 : Nat) (r : List Nat) :
    (List.range 4).foldl prepLocStep (l0 :: l1 :: l2 :: l3 :: l4 :: r) =
      if validLoc (toupper l0) && validLoc (toupper l1) && validLoc (toupper l2)
          && validLoc (toupper l3) then
        toupper l0 :: toupper l1 :: toupper l2 :: toupper l3 :: l4 :: r
      else 65 :: 65 :: 48 :: 48 :: 0 :: r := by
  have e1 : validLoc (toupper 65) = true := by decide
  have e2 : validLoc (toupper 48) = true := by decide
  have e3 : toupper 65 = 65 := by decide
  have e4 : toupper 48 = 48 := by decide
  simp only [range_4, List.foldl_cons, List.foldl_nil]
  cases h0 : validLoc (toupper l0) <;> cases h1 : validLoc (toupper l1) <;>
  cases h2 : validLoc (toupper l2) <;> cases h3 : validLoc (toupper l3) <;>
  simp [prepLocStep_eq, h0, h1, h2, h3, e1, e2, e3, e4]

/-- The four characters `message_prep` stores in `locator`. -/
theorem locator_stored (o : Obj) (call : List Nat) (dbm l0 l1 l2 l3 l4 : Nat) (r : List Nat) :
    (message_prep o call (l0 :: l1 :: l2 :: l3 :: l4 :: r) dbm).obj.locator.take 4 =
      if validLoc (toupper l0) && validLoc (toupper l1) && validLoc (toupper l2)
          && validLoc (toupper l3) then
        [toupper l0, toupper l1, toupper l2, toupper l3]
      else [65, 65, 48, 48] := by
  simp only [message_prep, memcpy]
  rw [prepLoc_loop]
  split <;> simp

theorem okChar_norm (a : Nat) : okChar (norm a) = true := by
  cases h : (isdigit (toupper a) || isupper (toupper a))
  · rw [norm_of_not_alnum a h]; decide
  · rw [norm_of_alnum a h]
    simp only [okChar]
    rw [Bool.or_eq_true] at h
    rcases h with h | h <;> simp [h]

theorem norm_of_isdigit (a : Nat) (h : isdigit a = true) : norm a = a := by
  have ht : toupper a = a := by
    simp only [isdigit, Bool.and_eq_true, decide_eq_true_eq] at h
    unfold toupper; rw [if_neg (by omega)]
  unfold norm; rw [ht]; simp [h]

theorem norm_of_isupper (a : Nat) (h : isupper a = true) : norm a = a := by
  have ht : toupper a = a := by
    simp only [isupper, Bool.and_eq_true, decide_eq_true_eq] at h
    unfold toupper; rw [if_neg (by omega)]
  unfold norm; rw [ht]; simp [h]

/-- Every stored call sign has one of the two closed forms. -/
theorem callsign_cases (o : Obj) (call loc : List Nat) (dbm : Nat) (h6 : 6 ≤ call.length) :
    ∃ c0 c1 c2 c3 c4 c5, (message_prep o call loc dbm).obj.callsign.take 6 = [c0, c1, c2, c3, c4, c5] ∧
      okChar c0 = true ∧ okChar c1 = true ∧ okChar c2 = true ∧ okChar c3 = true ∧
      okChar c4 = true ∧ okChar c5 = true ∧ (c4 = 32 → c5 = 32) := by
  obtain ⟨a0, a1, a2, a3, a4, a5, r, rfl⟩ := length_ge_6 h6
  have h32 : okChar 32 = true := by decide
  cases h : (isdigit a1 && isupper a2)
  · refine ⟨_, _, _, _, _, _, callsign_noshift o loc dbm a0 a1 a2 a3 a4 a5 r h, ?_⟩
    refine ⟨okChar_norm _, okChar_norm _, okChar_norm _, okChar_norm _, okChar_norm _, ?_, ?_⟩
    · split
      · exact h32
      · exact okChar_norm _
    · intro h4; rw [if_pos h4]
  · refine ⟨_, _, _, _, _, _, callsign_shift o loc dbm a0 a1 a2 a3 a4 a5 r h, ?_⟩
    refine ⟨h32, okChar_norm _, okChar_norm _, okChar_norm _, okChar_norm _, ?_, ?_⟩
    · split
      · exact h32
      · exact okChar_norm _
    · intro h4; rw [if_pos h4]

theorem getD_take_lt (l : List Nat) (n i : Nat) (h : i < n) : (l.take n).getD i 0 = l.getD i 0 := by
  simp [List.getD_eq_getElem?_getD, List.getElem?_take, h]

/-- C4. Normalisation is not idempotent on the raw call sign `a1bcd`: the first run
of `message_prep` tests the third character for an uppercase letter before it
uppercases it, inserts no leading space and stores `A1BCD `; a second run on the
stored call sign and locator inserts the space and stores ` A1BCD`. -/
theorem message_prep_twice_differs :
    (message_prep obj0 (str "a1bcd" ++ [0, 0]) (str "FN42" ++ [0]) 37).obj.callsign.take 6
        = str "A1BCD " ∧
      (message_prep (message_prep obj0 (str "a1bcd" ++ [0, 0]) (str "FN42" ++ [0]) 37).obj
        (message_prep obj0 (str "a1bcd" ++ [0, 0]) (str "FN42" ++ [0]) 37).obj.callsign
        (message_prep obj0 (str "a1bcd" ++ [0, 0]) (str "FN42" ++ [0]) 37).obj.locator
        37).obj.callsign.take 6 = str " A1BCD" := by
  decide

/-- C5, counterexample. The raw call sign `ABC123` is stored unchanged: position 0
holds a letter, position 2 holds a letter and positions 3, 4, 5 hold digits, so the
stored call sign does not satisfy the grammar. -/
theorem callsign_grammar_fails :
    (message_prep obj0 (str "ABC123" ++ [0]) (str "FN42" ++ [0]) 37).obj.callsign.take 6
        = str "ABC123" ∧
      grammar (message_prep obj0 (str "ABC123" ++ [0]) (str "FN42" ++ [0]) 37).obj.callsign
        = false := by
  decide

/-- The alphabet of the stored call sign. -/
theorem stored_okChar (o : Obj) (call loc : List Nat) (dbm : Nat) (h6 : 6 ≤ call.length) :
    (∀ i, i < 6 → okChar ((message_prep o call loc dbm).obj.callsign.getD i 0) = true) ∧
    ((message_prep o call loc dbm).obj.callsign.getD 4 0 = 32 →
      (message_prep o call loc dbm).obj.callsign.getD 5 0 = 32) := by
  obtain ⟨c0, c1, c2, c3, c4, c5, hcs, h0, h1, h2, h3, h4, h5, h45⟩ :=
    callsign_cases o call loc dbm h6
  have hg : ∀ i, i < 6 → (message_prep o call loc dbm).obj.callsign.getD i 0
      = [c0, c1, c2, c3, c4, c5].getD i 0 := by
    intro i hi
    rw [← hcs, getD_take_lt _ _ _ hi]
  constructor
  · intro i hi
    rw [hg i hi]
    have : i = 0 ∨ i = 1 ∨ i = 2 ∨ i = 3 ∨ i = 4 ∨ i = 5 := by omega
    rcases this with h | h | h | h | h | h <;> (subst h; assumption)
  · rw [hg 4 (by decide), hg 5 (by decide)]
    exact h45

/-- C5, amended. For every raw call sign each of the six characters stored by
`message_prep` is a space, an uppercase letter or a digit, and position 5 is a space
whenever position 4 is. -/
theorem callsign_alphabet (o : Obj) (call loc : List Nat) (dbm : Nat) (h6 : 6 ≤ call.length) :
    (∀ i, i < 6 → okChar ((message_prep o call loc dbm).obj.callsign.getD i 0) = true) ∧
    ((message_prep o call loc dbm).obj.callsign.getD 4 0 = 32 →
      (message_prep o call loc dbm).obj.callsign.getD 5 0 = 32) :=
  stored_okChar o call loc dbm h6

/-- C5, amended, at the raw call sign `ab-cd`. -/
theorem callsign_alphabet_witness :
    (∀ i, i < 6 → okChar ((message_prep obj0 (str "ab-cd" ++ [0, 0]) (str "FN42" ++ [0]) 37
        ).obj.callsign.getD i 0) = true) ∧
    ((message_prep obj0 (str "ab-cd" ++ [0, 0]) (str "FN42" ++ [0]) 37).obj.callsign.getD 4 0 = 32 →
      (message_prep obj0 (str "ab-cd" ++ [0, 0]) (str "FN42" ++ [0]) 37).obj.callsign.getD 5 0 = 32) :=
  callsign_alphabet obj0 (str "ab-cd" ++ [0, 0]) (str "FN42" ++ [0]) 37 (by decide)

/-- C6. Locator fallback: when one of the first four characters of the locator is,
after uppercasing, neither a digit nor a letter `A..R`, `message_prep` stores
`AA00`; when all four are digits or letters `A..R` in either case it stores them
uppercased. -/
theorem locator_fallback (o : Obj) (call loc : List Nat) (dbm : Nat) (h5 : 5 ≤ loc.length) :
    ((∃ i, i < 4 ∧ validLoc (toupper (loc.getD i 0)) = false) →
      (message_prep o call loc dbm).obj.locator.take 4 = str "AA00") ∧
    ((∀ i, i < 4 → validLoc (toupper (loc.getD i 0)) = true) →
      (message_prep o call loc dbm).obj.locator.take 4 = (loc.take 4).map toupper) := by
  obtain ⟨l0, l1, l2, l3, l4, r, rfl⟩ := length_ge_5 h5
  rw [locator_stored]
  constructor
  · rintro ⟨i, hi, hv⟩
    have : i = 0 ∨ i = 1 ∨ i = 2 ∨ i = 3 := by omega
    have hs : str "AA00" = [65, 65, 48, 48] := by decide
    rcases this with h | h | h | h <;> subst h <;>
      simp only [List.getD_cons_zero, List.getD_cons_succ] at hv <;> simp [hv, hs]
  · intro h
    have h0 := h 0 (by decide)
    have h1 := h 1 (by decide)
    have h2 := h 2 (by decide)
    have h3 := h 3 (by decide)
    simp only [List.getD_cons_zero, List.getD_cons_succ] at h0 h1 h2 h3
    simp [h0, h1, h2, h3]

/-- C6, at the locators `FN4z` (replaced) and `fn42` (uppercased). -/
theorem locator_fallback_witness :
    (message_prep obj0 (str "K1ABC" ++ [0, 0]) (str "FN4z" ++ [0]) 37).obj.locator.take 4
        = str "AA00" ∧
      (message_prep obj0 (str "K1ABC" ++ [0, 0]) (str "fn42" ++ [0]) 37).obj.locator.take 4
        = ((str "fn42" ++ [0]).take 4).map toupper :=
  ⟨(locator_fallback obj0 (str "K1ABC" ++ [0, 0]) (str "FN4z" ++ [0]) 37 (by decide)).1
      ⟨3, by decide, by decide⟩,
   (locator_fallback obj0 (str "K1ABC" ++ [0, 0]) (str "fn42" ++ [0]) 37 (by decide)).2
      (by decide)⟩

/-- C7, counterexample. The raw call sign `W1A-B` has a digit at index 1 and an
uppercase letter at index 2, yet position 5 of the stored call sign is a space and
not the normalised original character 4, `B`. -/
theorem callsign_shift_fails :
    isdigit ((str "W1A-B").getD 1 0) = true ∧ isupper ((str "W1A-B").getD 2 0) = true ∧
      (message_prep obj0 (str "W1A-B" ++ [0, 0]) (str "FN42" ++ [0]) 37).obj.callsign.take 6
        = str " W1A  " ∧
      (message_prep obj0 (str "W1A-B" ++ [0, 0]) (str "FN42" ++ [0]) 37).obj.callsign.take 6
        ≠ 32 :: ((str "W1A-B").take 5).map norm := by
  decide

/-- C7, amended. For every call sign whose index-1 character is a digit and whose
index-2 character is an uppercase letter, `message_prep` stores a space at position
0, the normalised original characters 0..3 at positions 1..4, and at position 5 the
normalised original character 4, or a space when the original character 3
normalises to a space. -/
theorem callsign_shift_stored (o : Obj) (call loc : List Nat) (dbm : Nat) (h6 : 6 ≤ call.length)
    (h1 : isdigit (call.getD 1 0) = true) (h2 : isupper (call.getD 2 0) = true) :
    (message_prep o call loc dbm).obj.callsign.take 6 =
      [32, norm (call.getD 0 0), norm (call.getD 1 0), norm (call.getD 2 0), norm (call.getD 3 0),
        if norm (call.getD 3 0) = 32 then 32 else norm (call.getD 4 0)] := by
  obtain ⟨a0, a1, a2, a3, a4, a5, r, rfl⟩ := length_ge_6 h6
  simp only [List.getD_cons_zero, List.getD_cons_succ] at h1 h2 ⊢
  exact callsign_shift o loc dbm a0 a1 a2 a3 a4 a5 r (by rw [h1, h2]; rfl)

/-- C7, amended, at the raw call sign `W1ABC`, which is stored as ` W1ABC`. -/
theorem callsign_shift_stored_witness :
    (message_prep obj0 (str "W1ABC" ++ [0, 0]) (str "FN42" ++ [0]) 37).obj.callsign.take 6
      = str " W1ABC" :=
  (callsign_shift_stored obj0 (str "W1ABC" ++ [0, 0]) (str "FN42" ++ [0]) 37
    (by decide) (by decide) (by decide)).trans (by decide)

/-! ## A second run of `message_prep` -/

theorem isdigit_iff (c : Nat) : isdigit c = true ↔ 48 ≤ c ∧ c ≤ 57 := by simp [isdigit]
theorem isupper_iff (c : Nat) : isupper c = true ↔ 65 ≤ c ∧ c ≤ 90 := by simp [isupper]
theorem islower_iff (c : Nat) : islower c = true ↔ 97 ≤ c ∧ c ≤ 122 := by simp [islower]

theorem norm_eq (a : Nat) :
    norm a = if (48 ≤ a ∧ a ≤ 57) ∨ (65 ≤ a ∧ a ≤ 90) then a
      else if 97 ≤ a ∧ a ≤ 122 then a - 32 else 32 := by
  unfold norm
  simp only [Bool.or_eq_true, isdigit_iff, isupper_iff, toupper]
  split_ifs <;> omega

theorem norm_norm (a : Nat) : norm (norm a) = norm a := by
  rw [norm_eq (norm a), norm_eq a]
  split_ifs <;> omega

theorem isdigit_norm (a : Nat) : isdigit (norm a) = isdigit a := by
  rw [Bool.eq_iff_iff, isdigit_iff, isdigit_iff, norm_eq]
  split_ifs <;> omega

theorem isupper_norm (a : Nat) : isupper (norm a) = (isupper a || islower a) := by
  rw [Bool.eq_iff_iff, Bool.or_eq_true, isupper_iff, isupper_iff, islower_iff, norm_eq]
  split_ifs <;> omega

theorem toupper_toupper (a : Nat) : toupper (toupper a) = toupper a := by
  unfold toupper
  split_ifs <;> omega

theorem eq_of_take_6 {l : List Nat} {c0 c1 c2 c3 c4 c5 : Nat}
    (h : l.take 6 = [c0, c1, c2, c3, c4, c5]) :
    l = c0 :: c1 :: c2 :: c3 :: c4 :: c5 :: l.drop 6 := by
  have := List.take_append_drop 6 l
  rw [h] at this
  exact this.symm

theorem callsign_twice (o o2 : Obj) (loc loc2 : List Nat) (dbm a0 a1 a2 a3 a4 a5 : Nat)
    (r : List Nat) (hcase : (isdigit a1 && islower a2) = false) :
    (message_prep o2 (message_prep o (a0 :: a1 :: a2 :: a3 :: a4 :: a5 :: r) loc dbm).obj.callsign
        loc2 dbm).obj.callsign.take 6
      = (message_prep o (a0 :: a1 :: a2 :: a3 :: a4 :: a5 :: r) loc dbm).obj.callsign.take 6 := by
  have h32 : norm 32 = 32 := by decide
  cases h : (isdigit a1 && isupper a2)
  · have h1 := callsign_noshift o loc dbm a0 a1 a2 a3 a4 a5 r h
    rw [h1, eq_of_take_6 h1]
    have h2 : (isdigit (norm a1) && isupper (norm a2)) = false := by
      rw [isdigit_norm, isupper_norm]
      revert h hcase
      cases isdigit a1 <;> cases isupper a2 <;> cases islower a2 <;> simp
    rw [callsign_noshift _ _ _ _ _ _ _ _ _ _ h2]
    simp only [norm_norm]
    split <;> simp [h32, norm_norm]
  · have h1 := callsign_shift o loc dbm a0 a1 a2 a3 a4 a5 r h
    rw [h1, eq_of_take_6 h1]
    have h2 : (isdigit (norm a0) && isupper (norm a1)) = false := by
      rw [Bool.and_eq_true] at h
      have hd := (isdigit_iff a1).mp h.1
      have : isupper (norm a1) = false := by
        rw [norm_of_isdigit _ h.1, Bool.eq_false_iff, Ne, isupper_iff]; omega
      rw [this, Bool.and_false]
    rw [callsign_noshift _ _ _ _ _ _ _ _ _ _ h2]
    simp only [norm_norm, h32]
    split <;> simp [h32, norm_norm]

theorem locator_again (o2 : Obj) (call2 : List Nat) (dbm l0 l1 l2 l3 : Nat) (L : List Nat)
    (hlen : 5 ≤ L.length)
    (h1 : L.take 4 = if validLoc (toupper l0) && validLoc (toupper l1) && validLoc (toupper l2)
          && validLoc (toupper l3) then [toupper l0, toupper l1, toupper l2, toupper l3]
        else [65, 65, 48, 48]) :
    (message_prep o2 call2 L dbm).obj.locator.take 4 = L.take 4 := by
  obtain ⟨x0, x1, x2, x3, x4, rest, rfl⟩ := length_ge_5 hlen
  rw [locator_stored]
  simp only [List.take_succ_cons, List.take_zero] at h1 ⊢
  split at h1
  · rename_i hv
    injection h1 with e0 h1; injection h1 with e1 h1; injection h1 with e2 h1
    injection h1 with e3 h1
    subst e0 e1 e2 e3
    simp only [toupper_toupper]
    rw [if_pos hv]
  · injection h1 with e0 h1; injection h1 with e1 h1; injection h1 with e2 h1
    injection h1 with e3 h1
    subst e0 e1 e2 e3
    rfl

theorem locator_twice (o o2 : Obj) (call call2 : List Nat) (dbm l0 l1 l2 l3 l4 : Nat)
    (r : List Nat) (ho : 5 ≤ o.locator.length) :
    (message_prep o2 call2 (message_prep o call (l0 :: l1 :: l2 :: l3 :: l4 :: r) dbm).obj.locator
        dbm).obj.locator.take 4
      = (message_prep o call (l0 :: l1 :: l2 :: l3 :: l4 :: r) dbm).obj.locator.take 4 := by
  have h1 := locator_stored o call dbm l0 l1 l2 l3 l4 r
  have hlen : 5 ≤ (message_prep o call (l0 :: l1 :: l2 :: l3 :: l4 :: r) dbm).obj.locator.length := by
    simp only [message_prep, memcpy, List.length_append, List.length_take, List.length_drop]
    have : 5 ≤ ((List.range 4).foldl prepLocStep (l0 :: l1 :: l2 :: l3 :: l4 :: r)).length := by
      rw [prepLoc_loop]; split <;> simp
    omega
  exact locator_again o2 call2 dbm l0 l1 l2 l3 _ hlen h1

/-- Outside the case that the first statement of `message_prep` misses (a digit at
index 1 followed by a lowercase letter at index 2), a second run of `message_prep`
on the stored call sign and locator stores the same call sign and locator. -/
theorem message_prep_idempotent_of (o : Obj) (call loc : List Nat) (dbm : Nat)
    (h6 : 6 ≤ call.length) (h5 : 5 ≤ loc.length) (ho : 5 ≤ o.locator.length)
    (hcase : (isdigit (call.getD 1 0) && islower (call.getD 2 0)) = false) :
    (message_prep (message_prep o call loc dbm).obj (message_prep o call loc dbm).obj.callsign
        (message_prep o call loc dbm).obj.locator dbm).obj.callsign.take 6
      = (message_prep o call loc dbm).obj.callsign.take 6 ∧
    (message_prep (message_prep o call loc dbm).obj (message_prep o call loc dbm).obj.callsign
        (message_prep o call loc dbm).obj.locator dbm).obj.locator.take 4
      = (message_prep o call loc dbm).obj.locator.take 4 := by
  obtain ⟨a0, a1, a2, a3, a4, a5, r, rfl⟩ := length_ge_6 h6
  obtain ⟨l0, l1, l2, l3, l4, rl, rfl⟩ := length_ge_5 h5
  simp only [List.getD_cons_zero, List.getD_cons_succ] at hcase
  exact ⟨callsign_twice _ _ _ _ _ _ _ _ _ _ _ _ hcase, locator_twice _ _ _ _ _ _ _ _ _ _ _ ho⟩

/-! ## Payload layout -/

theorem and_15 (x : Nat) : x &&& 15 = x % 16 := Nat.and_pow_two_sub_one_eq_mod x 4

theorem and_255 (x : Nat) : x &&& 255 = x % 256 := Nat.and_pow_two_sub_one_eq_mod x 8

theorem and_3 (x : Nat) : x &&& 3 = x % 4 := Nat.and_pow_two_sub_one_eq_mod x 2

theorem or_nibble (a b : Nat) (hb : b < 16) : (16 * a) ||| b = 16 * a + b :=
  (Nat.mul_add_lt_is_or (i := 4) hb a).symm

theorem length_eq_11 {c : List Nat} (h : c.length = 11) :
    ∃ a0 a1 a2 a3 a4 a5 a6 a7 a8 a9 a10, c = [a0, a1, a2, a3, a4, a5, a6, a7, a8, a9, a10] := by
  match c, h with
  | [a0, a1, a2, a3, a4, a5, a6, a7, a8, a9, a10], _ => exact ⟨_, _, _, _, _, _, _, _, _, _, _, rfl⟩

/-- The eleven bytes that `serialise` leaves in `c`, in arithmetic form. -/
theorem serialise_eq (c : List Nat) (hc : c.length = 11) (n m : Nat) :
    serialise c n m =
      [n / 1048576 % 256, n / 4096 % 256, n / 16 % 256, 16 * (n % 16) + m / 262144 % 16,
       m / 1024 % 256, m / 4 % 256, 64 * (m % 4), 0, 0, 0, 0] := by
  obtain ⟨a0, a1, a2, a3, a4, a5, a6, a7, a8, a9, a10, rfl⟩ := length_eq_11 hc
  have h1 : (n % 16 * 16) % 256 = 16 * (n % 16) := by omega
  have h2 : (m % 4 * 64) % 256 = 64 * (m % 4) := by omega
  simp only [serialise, List.set_cons_zero, List.set_cons_succ, List.getD_cons_zero,
    List.getD_cons_succ, Nat.shiftRight_eq_div_pow, Nat.shiftLeft_eq, and_15, and_255, and_3]
  norm_num [Nat.div_div_eq_div_mul, h1, h2]
  rw [or_nibble _ _ (by omega)]
  omega

/-- C3. Payload layout: for `n < 2^28` and `m < 2^22` the serialisation step of
`encode` fills the 11-byte buffer `c` with bytes whose big-endian value is
`n * 2^60 + m * 2^38` (28 bits of `n`, 22 bits of `m`, 38 zero bits); `c[7..10]`
are zero and the low 6 bits of `c[6]` are zero. -/
theorem serialise_layout (c : List Nat) (hc : c.length = 11) (n m : Nat)
    (hn : n < 2 ^ 28) (hm : m < 2 ^ 22) :
    (serialise c n m).length = 11 ∧ (∀ b ∈ serialise c n m, b < 256) ∧
    beValue (serialise c n m) = n * 2 ^ 60 + m * 2 ^ 38 ∧
    (serialise c n m).drop 7 = [0, 0, 0, 0] ∧ (serialise c n m).getD 6 0 % 64 = 0 := by
  rw [serialise_eq c hc]
  refine ⟨rfl, ?_, ?_, rfl, ?_⟩
  · intro b hb
    simp only [List.mem_cons, List.mem_singleton, List.not_mem_nil, or_false] at hb
    omega
  · simp only [beValue, List.foldl_cons, List.foldl_nil]
    omega
  · simp only [List.getD_cons_zero, List.getD_cons_succ]
    omega

/-- C3, witness: `n = 0xF70C238`, `m = 0x2C3465` give
`F7 0C 23 8B 0D 19 40 00 00 00 00`. -/
theorem serialise_layout_witness :
    serialise (uninit (fun i => 170 + i) 11) 0xF70C238 0x2C3465
        = [0xF7, 0x0C, 0x23, 0x8B, 0x0D, 0x19, 0x40, 0, 0, 0, 0] ∧
      beValue (serialise (uninit (fun i => 170 + i) 11) 0xF70C238 0x2C3465)
        = 0xF70C238 * 2 ^ 60 + 0x2C3465 * 2 ^ 38 :=
  ⟨by decide,
   (serialise_layout (uninit (fun i => 170 + i) 11) (by decide) 0xF70C238 0x2C3465
      (by decide) (by decide)).2.2.1⟩

/-! ## Field widths -/

theorem code_eq (c : Nat) :
    code c = if 48 ≤ c ∧ c ≤ 57 then c - 48 else if c = 32 then 36
      else if 65 ≤ c ∧ c ≤ 90 then c - 55 else 255 := by
  unfold code u8
  simp only [isdigit, Bool.and_eq_true, decide_eq_true_eq]
  split_ifs <;> omega

theorem code_le_of_okChar (c : Nat) (h : okChar c = true) : code c ≤ 36 := by
  simp only [okChar, isupper, isdigit, Bool.or_eq_true, Bool.and_eq_true, decide_eq_true_eq] at h
  rw [code_eq]
  split_ifs <;> omega

theorem code_of_letter_or_space (c : Nat) (h : (isupper c || decide (c = 32)) = true) :
    10 ≤ code c ∧ code c ≤ 36 := by
  simp only [isupper, Bool.or_eq_true, Bool.and_eq_true, decide_eq_true_eq] at h
  rw [code_eq]
  split_ifs <;> omega

theorem u32_eq (x : Int) (n : Nat) (h : x = n) (hn : n < 4294967296) : u32 x = n := by
  subst h; unfold u32; omega

theorem packN_lt (c0 c1 c2 c3 c4 c5 : Nat) (h0 : code c0 ≤ 36) (h1 : code c1 ≤ 36)
    (h2 : code c2 ≤ 36) (h3 : 10 ≤ code c3 ∧ code c3 ≤ 36) (h4 : 10 ≤ code c4 ∧ code c4 ≤ 36)
    (h5 : 10 ≤ code c5 ∧ code c5 ≤ 36) : packN c0 c1 c2 c3 c4 c5 < 2 ^ 28 := by
  have e1 := u32_eq ((code c0 : Int) * 36 + code c1) (code c0 * 36 + code c1)
    (by omega) (by omega)
  have e2 := u32_eq (((code c0 * 36 + code c1 : Nat) : Int) * 10 + code c2)
    ((code c0 * 36 + code c1) * 10 + code c2) (by omega) (by omega)
  have e3 := u32_eq ((((code c0 * 36 + code c1) * 10 + code c2 : Nat) : Int) * 27
    + ((code c3 : Int) - 10)) (((code c0 * 36 + code c1) * 10 + code c2) * 27 + (code c3 - 10))
    (by omega) (by omega)
  have e4 := u32_eq (((((code c0 * 36 + code c1) * 10 + code c2) * 27 + (code c3 - 10) : Nat)
    : Int) * 27 + ((code c4 : Int) - 10))
    ((((code c0 * 36 + code c1) * 10 + code c2) * 27 + (code c3 - 10)) * 27 + (code c4 - 10))
    (by omega) (by omega)
  have e5 := u32_eq ((((((code c0 * 36 + code c1) * 10 + code c2) * 27 + (code c3 - 10)) * 27
    + (code c4 - 10) : Nat) : Int) * 27 + ((code c5 : Int) - 10))
    (((((code c0 * 36 + code c1) * 10 + code c2) * 27 + (code c3 - 10)) * 27
      + (code c4 - 10)) * 27 + (code c5 - 10))
    (by omega) (by omega)
  simp only [packN, e1, e2, e3, e4, e5]
  omega

/-- The type-1 value `m` without reduction, for a locator whose first two
characters are letters `A..R`, whose third is a digit and whose fourth is a digit or
a letter `A..R`. -/
theorem type1M_eq (l : List Nat) (power : Nat) (hl : locHead l = true)
    (h3 : validLoc (l.getD 3 0) = true) (hp : power < 256) :
    type1M l power =
      ((179 - 10 * (l.getD 0 0 - 65) - (l.getD 2 0 - 48)) * 180 + 10 * (l.getD 1 0 - 65)
        + (l.getD 3 0 - 48)) * 128 + power + 64 := by
  simp only [locHead, isdigit, Bool.and_eq_true, decide_eq_true_eq] at hl
  simp only [validLoc, isdigit, Bool.or_eq_true, Bool.and_eq_true, decide_eq_true_eq] at h3
  have e1 := u32_eq (((179 - 10 * ((l.getD 0 0 : Int) - 65) - ((l.getD 2 0 : Int) - 48)) * 180)
    + (10 * ((l.getD 1 0 : Int) - 65)) + ((l.getD 3 0 : Int) - 48))
    ((179 - 10 * (l.getD 0 0 - 65) - (l.getD 2 0 - 48)) * 180 + 10 * (l.getD 1 0 - 65)
        + (l.getD 3 0 - 48)) (by omega) (by omega)
  have e2 := u32_eq (((((179 - 10 * (l.getD 0 0 - 65) - (l.getD 2 0 - 48)) * 180
    + 10 * (l.getD 1 0 - 65) + (l.getD 3 0 - 48) : Nat) : Int) * 128) + power + 64)
    (((179 - 10 * (l.getD 0 0 - 65) - (l.getD 2 0 - 48)) * 180 + 10 * (l.getD 1 0 - 65)
        + (l.getD 3 0 - 48)) * 128 + power + 64) (by omega) (by omega)
  simp only [type1M, e1, e2]

theorem type1M_lt (l : List Nat) (power : Nat) (hl : locHead l = true)
    (h3 : validLoc (l.getD 3 0) = true) (hp : power ≤ 60) :
    type1M l power < 2 ^ 22 := by
  rw [type1M_eq l power hl h3 (by omega)]
  simp only [locHead, isdigit, Bool.and_eq_true, decide_eq_true_eq] at hl
  simp only [validLoc, isdigit, Bool.or_eq_true, Bool.and_eq_true, decide_eq_true_eq] at h3
  omega

/-- Every character of the stored locator is a digit or a letter `A..R`. -/
theorem stored_validLoc (o : Obj) (call loc : List Nat) (dbm : Nat) (h5 : 5 ≤ loc.length)
    (i : Nat) (hi : i < 4) :
    validLoc ((message_prep o call loc dbm).obj.locator.getD i 0) = true := by
  obtain ⟨l0, l1, l2, l3, l4, r, rfl⟩ := length_ge_5 h5
  rw [← getD_take_lt _ 4 _ hi, locator_stored]
  have hi4 : i = 0 ∨ i = 1 ∨ i = 2 ∨ i = 3 := by omega
  split
  · rename_i hv
    simp only [Bool.and_eq_true] at hv
    obtain ⟨⟨⟨v0, v1⟩, v2⟩, v3⟩ := hv
    rcases hi4 with h | h | h | h <;> (subst h; assumption)
  · rcases hi4 with h | h | h | h <;> (subst h; decide)

/-- C8, counterexample. `message_prep` stores the call sign `000000` and the
locator `RRRR` unchanged, and with power 0 the type-1 values are
`n = 4294959726` and `m = 4294417472`, both beyond their fields. -/
theorem type1_widths_fail :
    (message_prep obj0 (str "000000" ++ [0]) (str "RRRR" ++ [0]) 0).obj.callsign.take 6
        = str "000000" ∧
      (message_prep obj0 (str "000000" ++ [0]) (str "RRRR" ++ [0]) 0).obj.locator.take 4
        = str "RRRR" ∧
      ¬ (callN (message_prep obj0 (str "000000" ++ [0]) (str "RRRR" ++ [0]) 0).obj.callsign
          < 2 ^ 28) ∧
      ¬ (type1M (message_prep obj0 (str "000000" ++ [0]) (str "RRRR" ++ [0]) 0).obj.locator
          (message_prep obj0 (str "000000" ++ [0]) (str "RRRR" ++ [0]) 0).obj.power < 2 ^ 22) := by
  decide

/-- C8, amended. For every call sign and locator stored by `message_prep` such
that the call sign has an uppercase letter or a space at positions 3, 4 and 5 and
the locator has a letter `A..R` at positions 0 and 1 and a digit at position 2, and
for every power in 0..60, the type-1 values satisfy `n < 2^28` and `m < 2^22`. -/
theorem type1_widths (o : Obj) (call loc : List Nat) (dbm : Nat) (h6 : 6 ≤ call.length)
    (h5 : 5 ≤ loc.length) (hp : dbm ≤ 60)
    (hc : tailGrammar (message_prep o call loc dbm).obj.callsign = true)
    (hl : locHead (message_prep o call loc dbm).obj.locator = true) :
    callN (message_prep o call loc dbm).obj.callsign < 2 ^ 28 ∧
      type1M (message_prep o call loc dbm).obj.locator
        (message_prep o call loc dbm).obj.power < 2 ^ 22 := by
  have hok := (stored_okChar o call loc dbm h6).1
  simp only [tailGrammar, Bool.and_eq_true] at hc
  obtain ⟨⟨h3, h4⟩, h5c⟩ := hc
  constructor
  · exact packN_lt _ _ _ _ _ _ (code_le_of_okChar _ (hok 0 (by decide)))
      (code_le_of_okChar _ (hok 1 (by decide))) (code_le_of_okChar _ (hok 2 (by decide)))
      (code_of_letter_or_space _ h3) (code_of_letter_or_space _ h4)
      (code_of_letter_or_space _ h5c)
  · exact type1M_lt _ _ hl (stored_validLoc o call loc dbm h5 3 (by decide)) hp

/-- C8, amended, at the call sign `K1ABC`, the locator `FN42` and power 37. -/
theorem type1_widths_witness :
    callN (message_prep obj0 (str "K1ABC" ++ [0, 0]) (str "FN42" ++ [0]) 37).obj.callsign
        < 2 ^ 28 ∧
      type1M (message_prep obj0 (str "K1ABC" ++ [0, 0]) (str "FN42" ++ [0]) 37).obj.locator
        (message_prep obj0 (str "K1ABC" ++ [0, 0]) (str "FN42" ++ [0]) 37).obj.power < 2 ^ 22 :=
  type1_widths obj0 (str "K1ABC" ++ [0, 0]) (str "FN42" ++ [0]) 37 (by decide) (by decide)
    (by decide) (by decide) (by decide)

theorem composite_K1ABC_1 (junk : Nat → Nat) :
    composite dataSuffix1 (uninit junk 11) (str "K1ABC")
      = some [75, 49, 65, 66, 67, 47, 49, 0, junk 8, junk 9, junk 10] := by
  rfl

theorem hashMix_K1ABC_1 (mem : Nat → Nat) (h0 : mem 0 = 75) (h1 : mem 1 = 49) (h2 : mem 2 = 65)
    (h3 : mem 3 = 66) (h4 : mem 4 = 67) (h5 : mem 5 = 47) (h6 : mem 6 = 49) (h7 : mem 7 = 0) :
    hashMix mem 7 = 34881 := by
  simp only [hashMix, word, h0, h1, h2, h3, h4, h5, h6, h7, Nat.reduceEqDiff, if_false, if_true]
  decide

theorem CallSignHash_K1ABC_1 (junk : Nat → Nat) :
    CallSignHash dataSuffix1 junk (str "K1ABC") = some 34881 := by
  unfold CallSignHash
  rw [composite_K1ABC_1]
  have hlen : strlenBuf [75, 49, 65, 66, 67, 47, 49, 0, junk 8, junk 9, junk 10] = some 7 := by
    rfl
  simp only [Option.bind_eq_bind, Option.some_bind, hlen]
  rw [hashMix_K1ABC_1] <;> rfl

/-- C9. With the call sign `K1ABC` and suffix code 1 the composite string is
`K1ABC/1`, `CallSignHash` returns 34881, and for every power in 0..60 the type-3
value `m = 128 * 34881 - power - 1 + 64` is at least `2^22`; the serialised payload
then equals the payload of the hash value 2113 = 34881 - 32768. -/
theorem type3_m_exceeds_field (junk : Nat → Nat) (power : Fin 61) :
    CallSignHash dataSuffix1 junk (str "K1ABC") = some 34881 ∧
      2 ^ 22 ≤ type3M 34881 power ∧
      ∀ (f : Nat → Nat) (n : Nat),
        serialise (uninit f 11) n (type3M 34881 power)
          = serialise (uninit f 11) n (type3M 2113 power) := by
  obtain ⟨power, hp⟩ := power
  refine ⟨CallSignHash_K1ABC_1 junk, ?_, ?_⟩
  · simp only [type3M, u32]
    omega
  · intro f n
    have hc : (uninit f 11).length = 11 := by simp [uninit]
    rw [serialise_eq _ hc, serialise_eq _ hc]
    simp only [type3M, u32]
    have e1 : ((128 * ((34881 : Nat) : Int) - (power : Int) - 1 + 64) % 4294967296).toNat
        = 4464831 - power := by omega
    have e2 : ((128 * ((2113 : Nat) : Int) - (power : Int) - 1 + 64) % 4294967296).toNat
        = 270527 - power := by omega
    rw [e1, e2]
    have h3 : (4464831 - power) / 262144 % 16 = (270527 - power) / 262144 % 16 := by omega
    have h4 : (4464831 - power) / 1024 % 256 = (270527 - power) / 1024 % 256 := by omega
    have h5 : (4464831 - power) / 4 % 256 = (270527 - power) / 4 % 256 := by omega
    have h6 : (4464831 - power) % 4 = (270527 - power) % 4 := by omega
    rw [h3, h4, h5, h6]

/-! ## Convolutional encoder -/

theorem and_128 (y : Nat) : y &&& 128 = if y.testBit 7 then 128 else 0 := by
  have h := Nat.and_two_pow y 7
  norm_num at h
  rw [h]
  cases y.testBit 7 <;> rfl

theorem input_bit_eq (x j : Nat) (hj : j < 8) :
    (if ((x <<< j) &&& 0x80) = 0x80 then 1 else 0) = x / 2 ^ (7 - j) % 2 := by
  rw [and_128, Nat.testBit_shiftLeft, Nat.testBit_to_div_mod]
  have h7 : decide (7 ≥ j) = true := by simp; omega
  rw [h7, Bool.true_and]
  have hlt := Nat.mod_lt (x / 2 ^ (7 - j)) (show 0 < 2 by decide)
  by_cases h : x / 2 ^ (7 - j) % 2 = 1
  · simp [h]
  · have h0 : x / 2 ^ (7 - j) % 2 = 0 := by omega
    simp [h0]

theorem length_convOut (c : List Nat) (m : Nat) : (convOut c m).length = 2 * m := by
  induction m with
  | zero => rfl
  | succ m ih => simp only [convOut, List.length_append, ih, List.length_cons, List.length_nil]; omega

theorem convBit_convState (c s : List Nat) (i j m : Nat) (hm : m = 8 * i + j) (hj : j < 8)
    (hs : 2 * m + 2 ≤ s.length) (h256 : 2 * m + 2 < 256) :
    convBit c i j (convState c s m) = convState c s (m + 1) := by
  have hbit : (if ((c.getD i 0 <<< j) &&& 0x80) = 0x80 then 1 else 0) = msgBit c m := by
    rw [input_bit_eq _ _ hj]
    unfold msgBit
    have h1 : m / 8 = i := by omega
    have h2 : m % 8 = j := by omega
    rw [h1, h2]
  obtain ⟨x, y, hd⟩ : ∃ x y, s.drop (2 * m) = x :: y :: s.drop (2 * (m + 1)) := by
    refine ⟨s[2 * m], s[2 * m + 1], ?_⟩
    rw [List.drop_eq_getElem_cons (show 2 * m < s.length by omega),
      List.drop_eq_getElem_cons (show 2 * m + 1 < s.length by omega)]
    rfl
  have hb1 : (2 * m + 1) % 256 = 2 * m + 1 := by omega
  have hb2 : (2 * m + 1 + 1) % 256 = 2 * (m + 1) := by omega
  have hset : ((convOut c m ++ x :: y :: s.drop (2 * (m + 1))).set (2 * m)
        (parity32 (shiftReg (msgBit c) (m + 1) &&& 0xf2d05351))).set (2 * m + 1)
        (parity32 (shiftReg (msgBit c) (m + 1) &&& 0xe4613c47))
      = convOut c (m + 1) ++ s.drop (2 * (m + 1)) := by
    rw [List.set_append, if_neg (by rw [length_convOut]; omega), length_convOut,
      Nat.sub_self, List.set_cons_zero, List.set_append,
      if_neg (by rw [length_convOut]; omega), length_convOut,
      show 2 * m + 1 - 2 * m = 1 by omega, List.set_cons_succ, List.set_cons_zero]
    simp only [convOut, List.append_assoc, List.cons_append, List.nil_append]
  have hr : (shiftReg (msgBit c) m <<< 1) % 4294967296 ||| msgBit c m
      = shiftReg (msgBit c) (m + 1) := rfl
  simp only [convBit, convState, hbit, hd, hb1, hb2, hr, hset]
theorem convInner_full (c s : List Nat) (i : Nat) (hs : 162 ≤ s.length) :
    ∀ (len j : Nat), j + len ≤ 8 → 8 * i + j + len ≤ 80 →
      convInner c 162 i (List.range' j len) (convState c s (8 * i + j))
        = convState c s (8 * i + j + len) := by
  intro len
  induction len with
  | zero => intro j _ _; rfl
  | succ len ih =>
    intro j h8 h80
    rw [List.range'_succ, convInner,
      convBit_convState c s i j (8 * i + j) rfl (by omega) (by omega) (by omega)]
    have hbc : ¬ (convState c s (8 * i + j + 1)).bit_count ≥ 162 := by
      simp only [convState]; omega
    simp only [hbc, if_false]
    have := ih (j + 1) (by omega) (by omega)
    rw [show 8 * i + (j + 1) = 8 * i + j + 1 by omega,
      show 8 * i + j + 1 + len = 8 * i + j + (len + 1) by omega] at this
    exact this

theorem convInner_last (c s : List Nat) (hs : 162 ≤ s.length) :
    convInner c 162 10 (List.range 8) (convState c s 80) = convState c s 81 := by
  rw [List.range_eq_range', List.range'_succ, convInner,
    convBit_convState c s 10 0 80 rfl (by omega) (by omega) (by omega)]
  have hbc : (convState c s 81).bit_count ≥ 162 := by
    simp only [convState]; omega
  simp only [hbc, if_true]

theorem convolve_outer (c s : List Nat) (hs : 162 ≤ s.length) :
    ∀ n, n ≤ 10 →
      (List.range n).foldl (fun v i => convInner c 162 i (List.range 8) v) (convState c s 0)
        = convState c s (8 * n) := by
  intro n
  induction n with
  | zero => intro _; rfl
  | succ n ih =>
    intro hn
    have ih := ih (by omega)
    have hstep := convInner_full c s n hs 8 0 (by omega) (by omega)
    rw [← List.range_eq_range', Nat.add_zero,
      show 8 * n + 8 = 8 * (n + 1) by omega] at hstep
    generalize hf : (fun v i => convInner c 162 i (List.range 8) v) = f at ih ⊢
    rw [List.range_succ, List.foldl_append, ih, List.foldl_cons, List.foldl_nil, ← hf]
    exact hstep

/-- The loops of `convolve`, for the sizes `encode` passes: the array holds the 162
parity bits followed by what it held beyond them. -/
theorem convolve_eq_convOut (c s : List Nat) (hs : 162 ≤ s.length) :
    convolve c s 11 162 = convOut c 81 ++ s.drop 162 := by
  have h0 : ({ reg_0 := 0, reg_1 := 0, bit_count := 0, s := s } : Conv) = convState c s 0 := by
    simp [convState, convOut, shiftReg]
  have h10 := convolve_outer c s hs 10 (by omega)
  have hlast := convInner_last c s hs
  unfold convolve
  rw [h0]
  generalize hf : (fun v i => convInner c 162 i (List.range 8) v) = f at h10 ⊢
  rw [List.range_succ, List.foldl_append, h10, List.foldl_cons, List.foldl_nil, ← hf]
  show (convInner c 162 10 (List.range 8) (convState c s 80)).s = _
  rw [hlast]
  rfl

theorem xorUpTo_congr (f g : Nat → Bool) (n : Nat) (h : ∀ k, k < n → f k = g k) :
    xorUpTo f n = xorUpTo g n := by
  induction n with
  | zero => rfl
  | succ n ih =>
    simp only [xorUpTo]
    rw [ih (fun k hk => h k (by omega)), h n (by omega)]

theorem xorUpTo_vanish (f : Nat → Bool) (n m : Nat) (hnm : n ≤ m)
    (h : ∀ k, n ≤ k → k < m → f k = false) : xorUpTo f m = xorUpTo f n := by
  induction m with
  | zero =>
    have : n = 0 := by omega
    rw [this]
  | succ m ih =>
    by_cases hn : n = m + 1
    · rw [hn]
    · simp only [xorUpTo]
      rw [h m (by omega) (by omega), ih (by omega) (fun k h1 h2 => h k h1 (by omega))]
      simp

theorem toNat_xor (p q : Bool) : p.toNat ^^^ q.toNat = (xor p q).toNat := by
  cases p <;> cases q <;> rfl

theorem toNat_mod_256 (p : Bool) : p.toNat % 256 = p.toNat := by
  cases p <;> rfl

theorem shiftRight_and_one (x k : Nat) : (x >>> k) &&& 1 = (x.testBit k).toNat := by
  rw [Nat.and_one_is_mod, Nat.shiftRight_eq_div_pow, Nat.testBit_to_div_mod]
  have hlt := Nat.mod_lt (x / 2 ^ k) (show 0 < 2 by decide)
  by_cases h : x / 2 ^ k % 2 = 1
  · simp [h]
  · have h0 : x / 2 ^ k % 2 = 0 := by omega
    simp [h0]

theorem parity_loop (x : Nat) (k : Nat) :
    (List.range k).foldl
      (fun (p : Nat × Nat) (_ : Nat) => ((p.1 ^^^ (p.2 &&& 0x01)) % 256, p.2 >>> 1)) (0, x)
      = ((xorUpTo (fun i => x.testBit i) k).toNat, x >>> k) := by
  induction k with
  | zero => rfl
  | succ k ih =>
    rw [List.range_succ, List.foldl_append, ih, List.foldl_cons, List.foldl_nil]
    simp only [xorUpTo]
    rw [shiftRight_and_one, toNat_xor, toNat_mod_256, ← Nat.shiftRight_add]

theorem parity32_eq (x : Nat) : parity32 x = (xorUpTo (fun i => x.testBit i) 32).toNat := by
  unfold parity32
  rw [parity_loop]

theorem testBit_bit (v k : Nat) (hv : v < 2) : v.testBit k = (decide (k = 0) && (v == 1)) := by
  have : v = 0 ∨ v = 1 := by omega
  rcases this with h | h
  · subst h; simp
  · subst h
    by_cases hk : k = 0
    · subst hk; rfl
    · have : Nat.testBit 1 k = false := by
        rw [← Bool.not_eq_true, Nat.testBit_one_eq_true_iff_self_eq_zero]; exact hk
      simp [this, hk]

theorem testBit_shiftReg (b : Nat → Nat) (hb : ∀ t, b t < 2) (m k : Nat) :
    (shiftReg b m).testBit k = (decide (k < m) && decide (k < 32) && (b (m - 1 - k) == 1)) := by
  induction m generalizing k with
  | zero => simp [shiftReg]
  | succ m ih =>
    simp only [shiftReg]
    rw [Nat.testBit_or, show (4294967296 : Nat) = 2 ^ 32 by norm_num, Nat.testBit_mod_two_pow,
      Nat.testBit_shiftLeft, testBit_bit _ _ (hb m), ih]
    cases k with
    | zero => simp
    | succ k =>
      have e : m + 1 - 1 - (k + 1) = m - 1 - k := by omega
      rw [e]
      by_cases h1 : k < m <;> by_cases h2 : k + 1 < 32 <;> (simp [h1, h2]; try omega)

theorem bit_eq_toNat (v : Nat) (hv : v < 2) : v = (v == 1).toNat := by
  have : v = 0 ∨ v = 1 := by omega
  rcases this with h | h <;> (subst h; rfl)

theorem tapXor_loop (p : Nat → Bool) (b : Nat → Nat) (hb : ∀ t, b t < 2) (t n : Nat) :
    ((List.range n).filter p).foldl (fun acc k => acc ^^^ b (t - k)) 0
      = (xorUpTo (fun k => p k && (b (t - k) == 1)) n).toNat := by
  induction n with
  | zero => rfl
  | succ n ih =>
    rw [List.range_succ, List.filter_append, List.foldl_append, ih]
    simp only [xorUpTo]
    cases hp : p n
    · simp [List.filter, hp]
    · simp only [List.filter, hp, List.foldl_cons, List.foldl_nil, Bool.true_and]
      rw [← toNat_xor, ← bit_eq_toNat _ (hb _)]

theorem tapXor_eq_xorUpTo (taps : Nat) (b : Nat → Nat) (hb : ∀ t, b t < 2) (t : Nat) :
    tapXor taps b t = (xorUpTo (fun k => taps.testBit k && (b (t - k) == 1)) (t + 1)).toNat :=
  tapXor_loop (fun k => taps.testBit k) b hb t (t + 1)

/-- The parity of a register masked with the taps is the tap XOR of the input. -/
theorem parity32_shiftReg (taps : Nat) (htaps : taps < 2 ^ 32) (b : Nat → Nat)
    (hb : ∀ t, b t < 2) (t : Nat) :
    parity32 (shiftReg b (t + 1) &&& taps) = tapXor taps b t := by
  rw [parity32_eq, tapXor_eq_xorUpTo taps b hb]
  congr 1
  have hhi : ∀ k, 32 ≤ k → taps.testBit k = false := fun k hk =>
    Nat.testBit_lt_two_pow (Nat.lt_of_lt_of_le htaps (Nat.pow_le_pow_right (by decide) hk))
  have hg : ∀ k, (shiftReg b (t + 1) &&& taps).testBit k
      = (decide (k < t + 1) && decide (k < 32) && (taps.testBit k && (b (t - k) == 1))) := by
    intro k
    rw [Nat.testBit_and, testBit_shiftReg b hb, show t + 1 - 1 - k = t - k by omega]
    cases taps.testBit k <;> simp
  rw [xorUpTo_congr _ _ 32 (fun k _ => hg k)]
  rw [xorUpTo_vanish _ (min 32 (t + 1)) 32 (by omega)
      (fun k h1 h2 => by simp; omega),
    xorUpTo_vanish (fun k => taps.testBit k && (b (t - k) == 1)) (min 32 (t + 1)) (t + 1)
      (by omega) (fun k h1 h2 => by
        show (taps.testBit k && (b (t - k) == 1)) = false
        rw [hhi k (by omega)]; rfl)]
  apply xorUpTo_congr
  intro k hk
  have h1 : k < t + 1 := by omega
  have h2 : k < 32 := by omega
  simp [h1, h2]

theorem msgBit_lt (c : List Nat) (t : Nat) : msgBit c t < 2 := by
  unfold msgBit; omega

theorem convOut_eq_map (c : List Nat) (m : Nat) :
    convOut c m = (List.range (2 * m)).map (fun k =>
      tapXor (if k % 2 = 0 then 0xF2D05351 else 0xE4613C47) (msgBit c) (k / 2)) := by
  induction m with
  | zero => rfl
  | succ m ih =>
    rw [show 2 * (m + 1) = (2 * m + 1) + 1 by omega, List.range_succ, List.range_succ,
      List.map_append, List.map_append, ← ih]
    simp only [convOut, List.map_cons, List.map_nil, List.append_assoc, List.cons_append,
      List.nil_append]
    rw [parity32_shiftReg _ (by norm_num) _ (msgBit_lt c),
      parity32_shiftReg _ (by norm_num) _ (msgBit_lt c)]
    have e1 : (2 * m) % 2 = 0 := by omega
    have e2 : (2 * m) / 2 = m := by omega
    have e3 : ¬ (2 * m + 1) % 2 = 0 := by omega
    have e4 : (2 * m + 1) / 2 = m := by omega
    rw [e1, e2, e4, if_pos rfl, if_neg e3]

/-- The array `s` after `convolve(c, s, 11, 162)`: the 162 parity bits of the
specification, followed by what the array held beyond them. -/
theorem convolve_eq (c s : List Nat) (hs : 162 ≤ s.length) :
    convolve c s 11 162 = convSpec c ++ s.drop 162 := by
  rw [convolve_eq_convOut c s hs, convOut_eq_map]
  rfl

/-- C10. Convolutional encoder: for every 11-byte buffer `c`,
`convolve(c, s, 11, 162)` writes the 162 entries `s[0..161]` and leaves the length
of `s` and every entry from index 162 on unchanged; with `b` the bits of `c` taken
MSB-first, for every `t` in 0..80 the entry `s[2t]` is the XOR of `b (t - k)` over all
`k ≤ t` such that bit `k` of `0xF2D05351` is set, and `s[2t+1]` is the same with
`0xE4613C47`. -/
theorem convolve_spec (c s : List Nat) (_hc : c.length = 11) (hs : 162 ≤ s.length) :
    (convolve c s 11 162).length = s.length ∧
    (∀ k, 162 ≤ k → (convolve c s 11 162)[k]? = s[k]?) ∧
    (∀ t, t < 81 →
      (convolve c s 11 162)[2 * t]? = some (tapXor 0xF2D05351 (msgBit c) t) ∧
      (convolve c s 11 162)[2 * t + 1]? = some (tapXor 0xE4613C47 (msgBit c) t)) := by
  have hlen : (convSpec c).length = 162 := by simp [convSpec]
  rw [convolve_eq c s hs]
  refine ⟨?_, ?_, ?_⟩
  · rw [List.length_append, hlen, List.length_drop]; omega
  · intro k hk
    rw [List.getElem?_append, if_neg (by omega), hlen, List.getElem?_drop,
      show 162 + (k - 162) = k by omega]
  · intro t ht
    have hget : ∀ k, k < 162 → (convSpec c ++ s.drop 162)[k]?
        = some (tapXor (if k % 2 = 0 then 0xF2D05351 else 0xE4613C47) (msgBit c) (k / 2)) := by
      intro k hk
      rw [List.getElem?_append, if_pos (by omega)]
      simp only [convSpec, List.getElem?_map, List.getElem?_range hk, Option.map_some']
    rw [hget _ (by omega), hget _ (by omega)]
    have e1 : (2 * t) % 2 = 0 := by omega
    have e2 : (2 * t) / 2 = t := by omega
    have e3 : ¬ (2 * t + 1) % 2 = 0 := by omega
    have e4 : (2 * t + 1) / 2 = t := by omega
    rw [e1, e2, e4, if_pos rfl, if_neg e3]
    exact ⟨rfl, rfl⟩

/-- C10, at the payload of ` K1ABC FN42 37` and an array of 162 entries. -/
theorem convolve_spec_witness :
    (convolve [0xF7, 0x0C, 0x23, 0x8B, 0x0D, 0x19, 0x40, 0, 0, 0, 0]
        (List.replicate 162 7) 11 162)[0]?
      = some (tapXor 0xF2D05351 (msgBit [0xF7, 0x0C, 0x23, 0x8B, 0x0D, 0x19, 0x40, 0, 0, 0, 0]) 0) :=
  ((convolve_spec [0xF7, 0x0C, 0x23, 0x8B, 0x0D, 0x19, 0x40, 0, 0, 0, 0]
    (List.replicate 162 7) (by decide) (by simp)).2.2 0 (by decide)).1

/-! ## Interleaver and sync vector -/

theorem foldl_set_range (f : Nat → Nat) (n : Nat) :
    ∀ l : List Nat, n ≤ l.length →
      (List.range n).foldl (fun l i => l.set i (f i)) l = (List.range n).map f ++ l.drop n := by
  induction n with
  | zero => intro l _; rfl
  | succ n ih =>
    intro l hl
    rw [List.range_succ, List.foldl_append, ih l (by omega), List.foldl_cons, List.foldl_nil,
      List.set_append, if_neg (by simp), List.drop_eq_getElem_cons (show n < l.length by omega)]
    simp only [List.length_map, List.length_range, Nat.sub_self, List.set_cons_zero,
      List.map_append, List.map_cons, List.map_nil, List.append_assoc, List.cons_append,
      List.nil_append]

/-- The array `symbols` after `merge_sync_vector`. -/
theorem merge_sync_vector_eq (g symbols : List Nat) (h : 162 ≤ symbols.length) :
    merge_sync_vector g symbols =
      (List.range 162).map (fun i => (sync_vector.getD i 0 + 2 * g.getD i 0) % 256)
        ++ symbols.drop 162 :=
  foldl_set_range (fun i => (sync_vector.getD i 0 + 2 * g.getD i 0) % 256) 162 symbols h

theorem fill_set (s : List Nat) (i : Nat) :
    ∀ (T : List (Option Nat)) (d : List Nat) (r : Nat),
      (fill s T d).set r (s.getD i 0) = fill s (T.set r (some i)) d := by
  intro T
  induction T with
  | nil => intro d r; rfl
  | cons o T ih =>
    intro d r
    cases d with
    | nil => cases r <;> rfl
    | cons x d =>
      cases r with
      | zero => rfl
      | succ r =>
        have := ih d r
        simp only [fill, List.zipWith_cons_cons, List.set_cons_succ] at this ⊢
        rw [this]

theorem interleaveLoop_trace (s d0 : List Nat) :
    ∀ (js : List Nat) (T : List (Option Nat)) (i : Nat),
      interleaveLoop s js (fill s T d0, i)
        = (fill s (interleaveTrace js (T, i)).1 d0, (interleaveTrace js (T, i)).2) := by
  intro js
  induction js with
  | nil => intro T i; rfl
  | cons j js ih =>
    intro T i
    simp only [interleaveLoop, interleaveTrace]
    by_cases hr : bitrev j < WSPR_SYMBOL_COUNT
    · simp only [hr, if_true, fill_set]
      by_cases hi : (i + 1) % 256 ≥ WSPR_SYMBOL_COUNT
      · simp only [hi, if_true]
      · simp only [hi, if_false]
        exact ih _ _
    · simp only [hr, if_false]
      by_cases hi : i ≥ WSPR_SYMBOL_COUNT
      · simp only [hi, if_true]
      · simp only [hi, if_false]
        exact ih _ _

theorem fill_none (s : List Nat) : ∀ (n : Nat) (d : List Nat), d.length = n →
    fill s (List.replicate n none) d = d := by
  intro n
  induction n with
  | zero => intro d hd; rw [List.length_eq_zero.mp hd]; rfl
  | succ n ih =>
    intro d hd
    cases d with
    | nil => simp at hd
    | cons x d =>
      simp only [List.replicate_succ, fill, List.zipWith_cons_cons]
      have := ih d (by simpa using hd)
      simp only [fill] at this
      rw [this]

theorem fill_some (s : List Nat) : ∀ (t : List Nat) (d : List Nat), t.length ≤ d.length →
    fill s (t.map some) d = t.map (fun k => s.getD k 0) := by
  intro t
  induction t with
  | nil => intro d _; simp [fill]
  | cons k t ih =>
    intro d hd
    cases d with
    | nil => simp at hd
    | cons x d =>
      simp only [List.map_cons, fill, List.zipWith_cons_cons]
      have := ih d (by simpa using hd)
      simp only [fill] at this
      rw [this]

set_option maxRecDepth 100000 in
theorem interleaveTrace_final :
    interleaveTrace (List.range 255) (List.replicate WSPR_SYMBOL_COUNT none, 0)
      = (interleaveSrc.map some, 162) := by
  decide

set_option maxRecDepth 100000 in
theorem length_interleaveSrc : interleaveSrc.length = 162 := by
  decide

/-- The array `s` after `interleave`: entry `r` holds the former entry
`interleaveSrc[r]`, for every initial content of the local array `d`. -/
theorem interleave_eq (d s : List Nat) (hd : d.length = 162) :
    interleave d s = interleaveSrc.map (fun k => s.getD k 0) ++ s.drop 162 := by
  have h := interleaveLoop_trace s d (List.range 255) (List.replicate WSPR_SYMBOL_COUNT none) 0
  rw [fill_none s WSPR_SYMBOL_COUNT d hd, interleaveTrace_final] at h
  simp only [interleave, h, memcpy]
  rw [fill_some s interleaveSrc d (by rw [length_interleaveSrc, hd]), WSPR_SYMBOL_COUNT,
    List.take_of_length_le (by simp [length_interleaveSrc])]

/-! ## The encoder, message type 1 -/

theorem length_uninit (f : Nat → Nat) (n : Nat) : (uninit f n).length = n := by
  simp [uninit]

theorem strcpy_some (dst src : List Nat) (h : strlen src + 1 ≤ dst.length) :
    strcpy dst src = some (cstr src ++ 0 :: dst.drop (strlen src + 1)) := by
  unfold strcpy; rw [if_pos h]

theorem getD_map_lt (f : Nat → Nat) (l : List Nat) (i : Nat) (h : i < l.length) :
    (l.map f).getD i 0 = f (l.getD i 0) := by
  rw [List.getD_eq_getElem _ _ (by simpa using h), List.getD_eq_getElem _ _ h, List.getElem_map]

theorem length_convSpec (c : List Nat) : (convSpec c).length = 162 := by
  simp [convSpec]

theorem channel_eq_map (c : List Nat) :
    (List.range 162).map (fun i => (sync_vector.getD i 0
        + 2 * (interleaveSrc.map (fun k => (convSpec c).getD k 0)).getD i 0) % 256)
      = channel c := by
  unfold channel
  apply List.map_congr_left
  intro i hi
  rw [List.mem_range] at hi
  rw [getD_map_lt _ _ _ (by rw [length_interleaveSrc]; exact hi)]

/-- The last three steps of `encode`: whatever the local arrays `s` and `d` hold
initially, `symbols` receives the 162 channel symbols of the payload. -/
theorem symbols_eq_channel (c : List Nat) (sJ dJ : Nat → Nat) (symbols : List Nat)
    (h : 162 ≤ symbols.length) :
    merge_sync_vector (interleave (uninit dJ WSPR_SYMBOL_COUNT)
        (convolve c (uninit sJ WSPR_SYMBOL_COUNT) 11 WSPR_SYMBOL_COUNT)) symbols
      = channel c ++ symbols.drop 162 := by
  have hsl : (uninit sJ 162).length = 162 := length_uninit _ _
  simp only [WSPR_SYMBOL_COUNT]
  rw [convolve_eq c _ (by rw [hsl]), List.drop_of_length_le (by rw [hsl]), List.append_nil,
    interleave_eq _ _ (length_uninit _ _),
    List.drop_of_length_le (by rw [length_convSpec]), List.append_nil,
    merge_sync_vector_eq _ _ h, channel_eq_map]

theorem getD_le_of_forall (l : List Nat) (b : Nat) (h : ∀ x ∈ l, x ≤ b) (i : Nat) :
    l.getD i 0 ≤ b := by
  rw [List.getD_eq_getElem?_getD]
  cases hx : l[i]? with
  | none => exact Nat.zero_le _
  | some x => exact h x (List.getElem?_mem hx)

theorem tapXor_le (taps : Nat) (b : Nat → Nat) (hb : ∀ t, b t < 2) (t : Nat) :
    tapXor taps b t ≤ 1 := by
  rw [tapXor_eq_xorUpTo taps b hb]
  exact Bool.toNat_le _

theorem convSpec_le (c : List Nat) : ∀ x ∈ convSpec c, x ≤ 1 := by
  intro x hx
  simp only [convSpec, List.mem_map] at hx
  obtain ⟨k, _, rfl⟩ := hx
  exact tapXor_le _ _ (msgBit_lt c) _

set_option maxRecDepth 100000 in
theorem sync_vector_le : ∀ x ∈ sync_vector, x ≤ 1 := by
  decide

/-- Every channel symbol is one of 0, 1, 2, 3. -/
theorem channel_lt (c : List Nat) : ∀ x ∈ channel c, x < 4 := by
  intro x hx
  simp only [channel, List.mem_map] at hx
  obtain ⟨i, _, rfl⟩ := hx
  have h1 := getD_le_of_forall sync_vector 1 sync_vector_le i
  have h2 := getD_le_of_forall (convSpec c) 1 (convSpec_le c) (interleaveSrc.getD i 0)
  omega

theorem length_channel (c : List Nat) : (channel c).length = 162 := by
  simp [channel]

/-- The result of `encode` for message type 1. -/
theorem encode_type1 (W : S_WSPRData) (o : Obj) (L : Locals) (call loc : List Nat) (dbm : Nat)
    (symbols : List Nat) (hcall : strlen call ≤ 6) (hloc : strlen loc ≤ 4)
    (hs : 162 ≤ symbols.length) :
    encode W o L call loc dbm symbols 1 =
      some (prepared o L call loc dbm,
        channel (payload1 o L call loc dbm) ++ symbols.drop 162) := by
  unfold encode
  rw [strcpy_some _ _ (by rw [length_uninit]; omega),
    strcpy_some _ _ (by rw [length_uninit]; omega)]
  simp only [Option.bind_eq_bind, Option.some_bind, pack, if_true, symbols_eq_channel _ _ _ _ hs]
  rfl

/-- C2. For every call sign of at most 6 characters, every locator of at most 4
characters and every power, `encode` with message type 1 returns, and it writes
exactly the entries 0..161 of `symbols`: there are 162 values, each in {0,1,2,3} and
independent of what `symbols` held, that `symbols` holds on return, followed by its
former entries from index 162 on. -/
theorem encode_type1_symbols (W : S_WSPRData) (o : Obj) (L : Locals) (call loc : List Nat)
    (dbm : Nat) (hcall : strlen call ≤ 6) (hloc : strlen loc ≤ 4) :
    ∃ syms : List Nat, syms.length = 162 ∧ (∀ x ∈ syms, x < 4) ∧
      ∀ symbols : List Nat, 162 ≤ symbols.length →
        (encode W o L call loc dbm symbols 1).map Prod.snd = some (syms ++ symbols.drop 162) := by
  refine ⟨channel (payload1 o L call loc dbm), length_channel _, channel_lt _, ?_⟩
  intro symbols hs
  rw [encode_type1 W o L call loc dbm symbols hcall hloc hs]
  rfl

/-- C2, at the call sign `K1ABC`, the locator `FN42` and power 37. -/
theorem encode_type1_symbols_witness :
    ∃ syms : List Nat, syms.length = 162 ∧ (∀ x ∈ syms, x < 4) ∧
      ∀ symbols : List Nat, 162 ≤ symbols.length →
        (encode dataSuffix1 obj0 locals0 (str "K1ABC") (str "FN42") 37 symbols 1).map Prod.snd
          = some (syms ++ symbols.drop 162) :=
  encode_type1_symbols dataSuffix1 obj0 locals0 (str "K1ABC") (str "FN42") 37
    (by decide) (by decide)

theorem callN_take (cs : List Nat) : callN (cs.take 6) = callN cs := by
  simp only [callN, getD_take_lt cs 6 _ (show 0 < 6 by decide),
    getD_take_lt cs 6 _ (show 1 < 6 by decide), getD_take_lt cs 6 _ (show 2 < 6 by decide),
    getD_take_lt cs 6 _ (show 3 < 6 by decide), getD_take_lt cs 6 _ (show 4 < 6 by decide),
    getD_take_lt cs 6 _ (show 5 < 6 by decide)]

theorem type1M_take (l : List Nat) (power : Nat) : type1M (l.take 4) power = type1M l power := by
  simp only [type1M, getD_take_lt l 4 _ (show 0 < 4 by decide),
    getD_take_lt l 4 _ (show 1 < 4 by decide), getD_take_lt l 4 _ (show 2 < 4 by decide),
    getD_take_lt l 4 _ (show 3 < 4 by decide)]

theorem prepared_K1ABC (o : Obj) (L : Locals) :
    (prepared o L (str "K1ABC") (str "FN42") 37).callsign.take 6 = str " K1ABC" ∧
    (prepared o L (str "K1ABC") (str "FN42") 37).locator.take 4 = str "FN42" ∧
    (prepared o L (str "K1ABC") (str "FN42") 37).power = 37 := by
  have hc : cstr (str "K1ABC") ++ 0 :: (uninit L.call_ 7).drop (strlen (str "K1ABC") + 1)
      = [75, 49, 65, 66, 67, 0, L.call_ 6] := rfl
  have hl : cstr (str "FN42") ++ 0 :: (uninit L.loc_ 5).drop (strlen (str "FN42") + 1)
      = [70, 78, 52, 50, 0] := rfl
  unfold prepared
  rw [hc, hl]
  refine ⟨?_, ?_, rfl⟩
  · rw [callsign_shift _ _ _ _ _ _ _ _ _ _ (by decide)]
    decide
  · rw [locator_stored]
    decide

theorem payload1_K1ABC (o : Obj) (L : Locals) :
    callN (prepared o L (str "K1ABC") (str "FN42") 37).callsign = 0xF70C238 ∧
    type1M (prepared o L (str "K1ABC") (str "FN42") 37).locator
      (prepared o L (str "K1ABC") (str "FN42") 37).power = 0x2C3465 ∧
    payload1 o L (str "K1ABC") (str "FN42") 37
      = [0xF7, 0x0C, 0x23, 0x8B, 0x0D, 0x19, 0x40, 0, 0, 0, 0] := by
  obtain ⟨h1, h2, h3⟩ := prepared_K1ABC o L
  have hn : callN (prepared o L (str "K1ABC") (str "FN42") 37).callsign = 0xF70C238 := by
    rw [← callN_take, h1]; decide
  have hm : type1M (prepared o L (str "K1ABC") (str "FN42") 37).locator
      (prepared o L (str "K1ABC") (str "FN42") 37).power = 0x2C3465 := by
    rw [← type1M_take, h2, h3]; decide
  refine ⟨hn, hm, ?_⟩
  unfold payload1
  rw [serialise_eq _ (length_uninit _ _), hn, hm]

set_option maxRecDepth 100000 in
theorem channel_K1ABC :
    channel [0xF7, 0x0C, 0x23, 0x8B, 0x0D, 0x19, 0x40, 0, 0, 0, 0] = symbolsK1ABC := by
  decide

set_option maxRecDepth 100000 in
/-- C1, counterexample. The symbol `encode` writes at index 146 for
`("K1ABC", "FN42", 37, type 1)` is 2, where the claimed list has 0. -/
theorem encode_K1ABC_differs :
    (encode dataSuffix1 obj0 locals0 (str "K1ABC") (str "FN42") 37 (List.replicate 162 0) 1).map
        (fun r => r.2.getD 146 0) = some 2 ∧
      claimedK1ABC.getD 146 0 = 0 ∧
      (encode dataSuffix1 obj0 locals0 (str "K1ABC") (str "FN42") 37 (List.replicate 162 0) 1).map
        Prod.snd ≠ some claimedK1ABC := by
  decide

/-- C1, amended. `encode("K1ABC", "FN42", 37, symbols, 1)` stores the call sign
` K1ABC`, packs `n = 0xF70C238` and `m = 0x2C3465`, and writes to `symbols[0..161]`
the claimed list with the entry at index 146 equal to 2 instead of 0. -/
theorem encode_K1ABC (W : S_WSPRData) (o : Obj) (L : Locals) (symbols : List Nat)
    (hs : 162 ≤ symbols.length) :
    ∃ o1, encode W o L (str "K1ABC") (str "FN42") 37 symbols 1
        = some (o1, symbolsK1ABC ++ symbols.drop 162) ∧
      o1.callsign.take 6 = str " K1ABC" ∧ callN o1.callsign = 0xF70C238 ∧
      type1M o1.locator o1.power = 0x2C3465 := by
  obtain ⟨hn, hm, hp⟩ := payload1_K1ABC o L
  refine ⟨_, (encode_type1 W o L (str "K1ABC") (str "FN42") 37 symbols (by decide) (by decide)
    hs).trans (by rw [hp, channel_K1ABC]), (prepared_K1ABC o L).1, hn, hm⟩

/-- C1, amended, for an array `symbols` of 162 zeros. -/
theorem encode_K1ABC_witness :
    ∃ o1, encode dataSuffix1 obj0 locals0 (str "K1ABC") (str "FN42") 37 (List.replicate 162 0) 1
        = some (o1, symbolsK1ABC ++ (List.replicate 162 0).drop 162) ∧
      o1.callsign.take 6 = str " K1ABC" ∧ callN o1.callsign = 0xF70C238 ∧
      type1M o1.locator o1.power = 0x2C3465 :=
  encode_K1ABC dataSuffix1 obj0 locals0 (List.replicate 162 0) (by simp)

/-! ## The interleaver as a permutation -/

set_option maxRecDepth 100000 in
theorem interleaveDst_perm : List.Perm interleaveDst (List.range 162) := by
  decide

set_option maxRecDepth 100000 in
theorem interleaveSrc_perm : List.Perm interleaveSrc (List.range 162) := by
  decide

set_option maxRecDepth 100000 in
theorem interleaveSrc_Dst : ∀ i, i < 162 → interleaveSrc.getD (interleaveDst.getD i 0) 0 = i := by
  decide

set_option maxRecDepth 100000 in
theorem interleaveDst_lt : ∀ i, i < 162 → interleaveDst.getD i 0 < 162 := by
  decide

set_option maxRecDepth 100000 in
theorem length_interleaveDst : interleaveDst.length = 162 := by
  decide

theorem map_getD_range (s : List Nat) (n : Nat) (h : s.length = n) :
    (List.range n).map (fun i => s.getD i 0) = s := by
  apply List.ext_getElem?
  intro i
  rw [List.getElem?_map]
  by_cases hi : i < n
  · rw [List.getElem?_range hi, Option.map_some', List.getD_eq_getElem?_getD,
      List.getElem?_eq_getElem (by omega)]
    rfl
  · rw [List.getElem?_eq_none (by simpa using Nat.le_of_not_lt hi),
      List.getElem?_eq_none (by omega)]
    rfl

/-- The array `s` after `interleave`, for an array of 162 entries. -/
theorem interleave_eq_map (d s : List Nat) (hd : d.length = 162) (hs : s.length = 162) :
    interleave d s = interleaveSrc.map (fun k => s.getD k 0) := by
  rw [interleave_eq d s hd, List.drop_of_length_le (by omega), List.append_nil]

/-- C11. The interleaver is a permutation: the list `interleaveDst` of the 8-bit bit
reversals of the `j` in 0..254 whose bit reversal is below 162, in increasing order
of `j`, is a bijection `p` on 0..161, and for every 162-entry input `s`, `interleave`
leaves `out[p(i)] = s[i]` for every `i`; the output has 162 entries and is a
permutation of `s`, and reading the output at `p(0), ..., p(161)` recovers `s`. -/
theorem interleave_permutation (d s : List Nat) (hd : d.length = 162) (hs : s.length = 162) :
    interleaveDst.length = 162 ∧ List.Perm interleaveDst (List.range 162) ∧
    (∀ i, i < 162 → (interleave d s).getD (interleaveDst.getD i 0) 0 = s.getD i 0) ∧
    (interleave d s).length = 162 ∧ List.Perm (interleave d s) s ∧
    interleaveDst.map (fun r => (interleave d s).getD r 0) = s := by
  have hget : ∀ i, i < 162 → (interleave d s).getD (interleaveDst.getD i 0) 0 = s.getD i 0 := by
    intro i hi
    rw [interleave_eq_map d s hd hs,
      getD_map_lt _ _ _ (by rw [length_interleaveSrc]; exact interleaveDst_lt i hi),
      interleaveSrc_Dst i hi]
  refine ⟨length_interleaveDst, interleaveDst_perm, hget, ?_, ?_, ?_⟩
  · rw [interleave_eq_map d s hd hs, List.length_map, length_interleaveSrc]
  · rw [interleave_eq_map d s hd hs]
    have h := List.Perm.map (fun k => s.getD k 0) interleaveSrc_perm
    rw [map_getD_range s 162 hs] at h
    exact h
  · apply List.ext_getElem?
    intro i
    rw [List.getElem?_map]
    by_cases hi : i < 162
    · have h1 : interleaveDst[i]? = some (interleaveDst.getD i 0) := by
        rw [List.getD_eq_getElem?_getD,
          List.getElem?_eq_getElem (by rw [length_interleaveDst]; exact hi)]
        rfl
      rw [h1, Option.map_some', hget i hi, List.getD_eq_getElem?_getD,
        List.getElem?_eq_getElem (by omega)]
      rfl
    · rw [List.getElem?_eq_none (by rw [length_interleaveDst]; omega),
        List.getElem?_eq_none (by omega)]
      rfl

/-- C11, at the input `0, 1, ..., 161` and an array `d` of 162 bytes `0xAA`. -/
theorem interleave_permutation_witness :
    interleaveDst.length = 162 ∧ List.Perm interleaveDst (List.range 162) ∧
    (∀ i, i < 162 → (interleave (List.replicate 162 170) (List.range 162)).getD
      (interleaveDst.getD i 0) 0 = (List.range 162).getD i 0) ∧
    (interleave (List.replicate 162 170) (List.range 162)).length = 162 ∧
    List.Perm (interleave (List.replicate 162 170) (List.range 162)) (List.range 162) ∧
    interleaveDst.map (fun r => (interleave (List.replicate 162 170) (List.range 162)).getD r 0)
      = List.range 162 :=
  interleave_permutation (List.replicate 162 170) (List.range 162) (by simp) (by simp)

/-! ## Message type 2 and the character codes -/

theorem encodeChar_eq (c : Nat) :
    encodeChar c = if c = 32 then 36 else if 48 ≤ c ∧ c ≤ 57 then c - 48
      else ((10 + ((c : Int) - 65)) % 256).toNat := by
  unfold encodeChar u8
  simp only [isdigit, Bool.and_eq_true, decide_eq_true_eq]
  split_ifs <;> omega

theorem encodeChar_le_of_okChar (c : Nat) (h : okChar c = true) : encodeChar c ≤ 36 := by
  simp only [okChar, isupper, isdigit, Bool.or_eq_true, Bool.and_eq_true, decide_eq_true_eq] at h
  rw [encodeChar_eq]
  split_ifs <;> omega

theorem type2M_prefixPath (W : S_WSPRData) (power : Nat) (hflag : W.SufixPrefix = 0)
    (h0 : okChar (W.Prefix.getD 0 0) = true) (h1 : okChar (W.Prefix.getD 1 0) = true)
    (h2 : okChar (W.Prefix.getD 2 0) = true) (hp : power < 256) :
    type2M W power =
      if prefixValue W.Prefix > 32767 then (prefixValue W.Prefix - 32768) * 128 + power + 66
      else prefixValue W.Prefix * 128 + power + 65 := by
  have b0 := encodeChar_le_of_okChar _ h0
  have b1 := encodeChar_le_of_okChar _ h1
  have b2 := encodeChar_le_of_okChar _ h2
  have e1 := u32_eq (37 * (encodeChar (W.Prefix.getD 0 0) : Int) + encodeChar (W.Prefix.getD 1 0))
    (37 * encodeChar (W.Prefix.getD 0 0) + encodeChar (W.Prefix.getD 1 0)) (by omega) (by omega)
  have e2 := u32_eq (37 * ((37 * encodeChar (W.Prefix.getD 0 0) + encodeChar (W.Prefix.getD 1 0)
      : Nat) : Int) + encodeChar (W.Prefix.getD 2 0)) (prefixValue W.Prefix)
    (by unfold prefixValue; omega) (by unfold prefixValue; omega)
  have hpv : prefixValue W.Prefix ≤ 50652 := by unfold prefixValue; omega
  simp only [type2M, hflag, ne_eq, not_true_eq_false, if_false, e1, e2]
  split
  · rename_i hgt
    have e3 := u32_eq ((prefixValue W.Prefix : Int) - 32768) (prefixValue W.Prefix - 32768)
      (by omega) (by omega)
    have e4 := u32_eq ((((prefixValue W.Prefix - 32768 : Nat) : Int) * 128) + power + 66)
      ((prefixValue W.Prefix - 32768) * 128 + power + 66) (by omega) (by omega)
    rw [e3, e4]
  · have e4 := u32_eq ((((prefixValue W.Prefix : Nat) : Int) * 128) + power + 65)
      (prefixValue W.Prefix * 128 + power + 65) (by omega) (by omega)
    rw [e4]

theorem type2M_suffixPath (W : S_WSPRData) (power : Nat) (hflag : W.SufixPrefix ≠ 0)
    (hs : W.Sufix < 256) (hp : power < 256) :
    type2M W power = (27232 + W.Sufix) * 128 + power + 66 := by
  have e1 := u32_eq (27232 + (W.Sufix : Int)) (27232 + W.Sufix) (by omega) (by omega)
  have e2 := u32_eq ((((27232 + W.Sufix : Nat) : Int) * 128) + power + 2 + 64)
    ((27232 + W.Sufix) * 128 + power + 66) (by omega) (by omega)
  simp only [type2M, hflag, ne_eq, not_false_eq_true, if_true, e1, e2]

/-- C12. Type-2 prefix boundary: for every 3-character prefix over digits,
uppercase letters and space, with `p = 37*37*encodeChar(P0) + 37*encodeChar(P1) +
encodeChar(P2)`, the type-2 packing without suffix computes
`m = (p - 32768)*128 + power + 66` when `p > 32767` and `m = p*128 + power + 65` when
`p <= 32767`. -/
theorem type2_prefix_boundary (W : S_WSPRData) (o : Obj) (L : Locals) (call : List Nat)
    (hflag : W.SufixPrefix = 0)
    (h0 : okChar (W.Prefix.getD 0 0) = true) (h1 : okChar (W.Prefix.getD 1 0) = true)
    (h2 : okChar (W.Prefix.getD 2 0) = true) (hp : o.power < 256) :
    pack W o L call 2 = some (callN o.callsign,
      if prefixValue W.Prefix > 32767 then (prefixValue W.Prefix - 32768) * 128 + o.power + 66
      else prefixValue W.Prefix * 128 + o.power + 65) := by
  rw [← type2M_prefixPath W o.power hflag h0 h1 h2 hp]
  rfl

/-- C12, witness: the prefix `NYN` has `p = 32768` and takes the `+66` branch, the
prefix `NYM` has `p = 32767` and takes the `+65` branch (power 37). -/
theorem type2_prefix_boundary_witness :
    prefixValue (str "NYN" ++ [0]) = 32768 ∧
      pack (dataPrefix (str "NYN" ++ [0])) { obj0 with power := 37 } locals0 (str "K1ABC") 2
        = some (callN obj0.callsign, 0 * 128 + 37 + 66) ∧
      prefixValue (str "NYM" ++ [0]) = 32767 ∧
      pack (dataPrefix (str "NYM" ++ [0])) { obj0 with power := 37 } locals0 (str "K1ABC") 2
        = some (callN obj0.callsign, 32767 * 128 + 37 + 65) :=
  ⟨by decide,
   (type2_prefix_boundary (dataPrefix (str "NYN" ++ [0])) { obj0 with power := 37 } locals0
      (str "K1ABC") (by decide) (by decide) (by decide) (by decide) (by decide)).trans
      (by decide),
   by decide,
   (type2_prefix_boundary (dataPrefix (str "NYM" ++ [0])) { obj0 with power := 37 } locals0
      (str "K1ABC") (by decide) (by decide) (by decide) (by decide) (by decide)).trans
      (by decide)⟩

/-- C15. Type-2 prefix and suffix encodings are disjoint: for every power in 0..60,
every 3-character prefix over digits, uppercase letters and space and every suffix
code in 0..81, the value `m` of the prefix path differs from the value `m` of the
suffix path, which is `(27232 + suffix)*128 + power + 66`, and both are below
`2^22`. -/
theorem type2_prefix_suffix_disjoint (W1 W2 : S_WSPRData) (power : Nat)
    (hflag1 : W1.SufixPrefix = 0)
    (h0 : okChar (W1.Prefix.getD 0 0) = true) (h1 : okChar (W1.Prefix.getD 1 0) = true)
    (h2 : okChar (W1.Prefix.getD 2 0) = true)
    (hflag2 : W2.SufixPrefix ≠ 0) (hs : W2.Sufix ≤ 81) (hp : power ≤ 60) :
    type2M W1 power ≠ type2M W2 power ∧
      type2M W2 power = (27232 + W2.Sufix) * 128 + power + 66 ∧
      type2M W1 power < 2 ^ 22 ∧ type2M W2 power < 2 ^ 22 := by
  have b0 := encodeChar_le_of_okChar _ h0
  have b1 := encodeChar_le_of_okChar _ h1
  have b2 := encodeChar_le_of_okChar _ h2
  have hpv : prefixValue W1.Prefix ≤ 50652 := by unfold prefixValue; omega
  rw [type2M_prefixPath W1 power hflag1 h0 h1 h2 (by omega),
    type2M_suffixPath W2 power hflag2 (by omega) (by omega)]
  split <;> omega

/-- C15, at the prefix `NYM`, the suffix code 81 and power 60. -/
theorem type2_prefix_suffix_disjoint_witness :
    type2M (dataPrefix (str "NYM" ++ [0])) 60 ≠ type2M (dataSuffix 81) 60 ∧
      type2M (dataSuffix 81) 60 = (27232 + (dataSuffix 81).Sufix) * 128 + 60 + 66 ∧
      type2M (dataPrefix (str "NYM" ++ [0])) 60 < 2 ^ 22 ∧ type2M (dataSuffix 81) 60 < 2 ^ 22 :=
  type2_prefix_suffix_disjoint (dataPrefix (str "NYM" ++ [0])) (dataSuffix 81) 60
    (by decide) (by decide) (by decide) (by decide) (by decide) (by decide) (by decide)

/-- C16. The invalid-character sentinel never reaches the packer for message types
1 and 2: for every raw call sign, each of the 6 characters stored by `message_prep`
is an uppercase letter, a digit or a space, and `code` of it, as evaluated in the
packing of `n`, is in 0..36 and not 255. -/
theorem code_never_sentinel (o : Obj) (call loc : List Nat) (dbm : Nat) (h6 : 6 ≤ call.length)
    (i : Nat) (hi : i < 6) :
    okChar ((message_prep o call loc dbm).obj.callsign.getD i 0) = true ∧
      code ((message_prep o call loc dbm).obj.callsign.getD i 0) ≤ 36 ∧
      code ((message_prep o call loc dbm).obj.callsign.getD i 0) ≠ 255 := by
  have hok := (stored_okChar o call loc dbm h6).1 i hi
  have hle := code_le_of_okChar _ hok
  exact ⟨hok, hle, by omega⟩

/-- C16, at the raw call sign `k1-b?` and position 2. -/
theorem code_never_sentinel_witness :
    okChar ((message_prep obj0 (str "k1-b?" ++ [0, 0]) (str "FN42" ++ [0]) 37).obj.callsign.getD 2 0)
        = true ∧
      code ((message_prep obj0 (str "k1-b?" ++ [0, 0]) (str "FN42" ++ [0]) 37).obj.callsign.getD 2 0)
        ≤ 36 ∧
      code ((message_prep obj0 (str "k1-b?" ++ [0, 0]) (str "FN42" ++ [0]) 37).obj.callsign.getD 2 0)
        ≠ 255 :=
  code_never_sentinel obj0 (str "k1-b?" ++ [0, 0]) (str "FN42" ++ [0]) 37 (by decide) 2 (by decide)

/-! ## Call sign hash -/

theorem and_mask (x n : Nat) : x &&& (2 ^ n - 1) = x % 2 ^ n := Nat.and_pow_two_sub_one_eq_mod x n

theorem word_mod (mem : Nat → Nat) (hb : ∀ i, mem i < 256) (i : Nat) :
    word mem i % 256 = mem (4 * i) ∧
    word mem i % 65536 = mem (4 * i) + mem (4 * i + 1) * 256 ∧
    word mem i % 16777216 = mem (4 * i) + mem (4 * i + 1) * 256 + mem (4 * i + 2) * 65536 := by
  have h0 := hb (4 * i)
  have h1 := hb (4 * i + 1)
  have h2 := hb (4 * i + 2)
  have h3 := hb (4 * i + 3)
  unfold word
  omega

theorem hashMix_lt (mem : Nat → Nat) (Length : Nat) : hashMix mem Length < 65536 := by
  unfold hashMix
  exact Nat.lt_of_le_of_lt Nat.and_le_right (by norm_num)

theorem hashMix_congr (mem1 mem2 : Nat → Nat) (L : Nat) (h3 : 3 ≤ L) (h10 : L ≤ 10)
    (hb1 : ∀ i, mem1 i < 256) (hb2 : ∀ i, mem2 i < 256)
    (hagree : ∀ i, i < L → mem1 i = mem2 i) :
    hashMix mem1 L = hashMix mem2 L := by
  have e255 : (0xff : Nat) = 2 ^ 8 - 1 := by norm_num
  have e65535 : (0xffff : Nat) = 2 ^ 16 - 1 := by norm_num
  have e24 : (0xffffff : Nat) = 2 ^ 24 - 1 := by norm_num
  have w1 := word_mod mem1 hb1
  have w2 := word_mod mem2 hb2
  have hw : ∀ i, 4 * i + 4 ≤ L → word mem1 i = word mem2 i := by
    intro i hi
    unfold word
    rw [hagree (4 * i) (by omega), hagree (4 * i + 1) (by omega), hagree (4 * i + 2) (by omega),
      hagree (4 * i + 3) (by omega)]
  have hm1 : ∀ i, 4 * i + 1 ≤ L → word mem1 i &&& 0xff = word mem2 i &&& 0xff := by
    intro i hi
    rw [e255, and_mask, and_mask]
    have := hagree (4 * i) (by omega)
    have := (w1 i).1
    have := (w2 i).1
    omega
  have hm2 : ∀ i, 4 * i + 2 ≤ L → word mem1 i &&& 0xffff = word mem2 i &&& 0xffff := by
    intro i hi
    rw [e65535, and_mask, and_mask]
    have := hagree (4 * i) (by omega)
    have := hagree (4 * i + 1) (by omega)
    have := (w1 i).2.1
    have := (w2 i).2.1
    omega
  have hm3 : ∀ i, 4 * i + 3 ≤ L → word mem1 i &&& 0xffffff = word mem2 i &&& 0xffffff := by
    intro i hi
    rw [e24, and_mask, and_mask]
    have := hagree (4 * i) (by omega)
    have := hagree (4 * i + 1) (by omega)
    have := hagree (4 * i + 2) (by omega)
    have := (w1 i).2.2
    have := (w2 i).2.2
    omega
  have hL : L = 3 ∨ L = 4 ∨ L = 5 ∨ L = 6 ∨ L = 7 ∨ L = 8 ∨ L = 9 ∨ L = 10 := by omega
  rcases hL with h | h | h | h | h | h | h | h <;> subst h <;>
    simp only [hashMix, Nat.reduceEqDiff, if_false, if_true]
  · rw [hm3 0 (by omega)]
  · rw [hw 0 (by omega)]
  · rw [hw 0 (by omega), hm1 1 (by omega)]
  · rw [hw 0 (by omega), hm2 1 (by omega)]
  · rw [hw 0 (by omega), hm3 1 (by omega)]
  · rw [hw 0 (by omega), hw 1 (by omega)]
  · rw [hw 0 (by omega), hw 1 (by omega), hm1 2 (by omega)]
  · rw [hw 0 (by omega), hw 1 (by omega), hm2 2 (by omega)]

theorem getD_lt_256 (l : List Nat) (h : ∀ x ∈ l, x ≤ 255) (i : Nat) : l.getD i 0 < 256 :=
  Nat.lt_succ_of_le (getD_le_of_forall l 255 h i)

/-- C20. The hash depends only on the characters of the composite string: for every
length `L` in 3..10 and any two byte memories that agree on their first `L` bytes,
the mixing stage of `CallSignHash` returns the same value, and that value is below
65536. -/
theorem hashMix_depends_on_string (mem1 mem2 : Nat → Nat) (L : Nat) (h3 : 3 ≤ L) (h10 : L ≤ 10)
    (hb1 : ∀ i, mem1 i < 256) (hb2 : ∀ i, mem2 i < 256)
    (hagree : ∀ i, i < L → mem1 i = mem2 i) :
    hashMix mem1 L = hashMix mem2 L ∧ hashMix mem1 L < 65536 :=
  ⟨hashMix_congr mem1 mem2 L h3 h10 hb1 hb2 hagree, hashMix_lt mem1 L⟩

/-- C20, at the string `K1ABC/1` followed by zeros and followed by the terminator
and bytes `0xAA`. -/
theorem hashMix_depends_on_string_witness :
    hashMix (fun i => [75, 49, 65, 66, 67, 47, 49].getD i 0) 7
        = hashMix (fun i => [75, 49, 65, 66, 67, 47, 49, 0, 170, 170, 170, 170].getD i 0) 7 ∧
      hashMix (fun i => [75, 49, 65, 66, 67, 47, 49].getD i 0) 7 < 65536 :=
  hashMix_depends_on_string _ _ 7 (by decide) (by decide)
    (getD_lt_256 _ (by decide)) (getD_lt_256 _ (by decide)) (by decide)

theorem hashMix_0 (mem : Nat → Nat) : hashMix mem 0 = 12623 := by
  simp only [hashMix, Nat.reduceEqDiff, if_false]
  decide

theorem hashMix_1 (mem : Nat → Nat) : hashMix mem 1 = 40671 := by
  simp only [hashMix, Nat.reduceEqDiff, if_false]
  decide

theorem hashMix_2 (mem : Nat → Nat) : hashMix mem 2 = 19286 := by
  simp only [hashMix, Nat.reduceEqDiff, if_false]
  decide

/-- For the lengths 0, 1 and 2 the mixing stage reads no byte of the string. -/
theorem hashMix_short (mem : Nat → Nat) (L : Nat) (hL : L ≤ 2) :
    hashMix mem L = [12623, 40671, 19286].getD L 0 := by
  have hL : L = 0 ∨ L = 1 ∨ L = 2 := by omega
  rcases hL with h | h | h <;> subst h
  · exact hashMix_0 mem
  · exact hashMix_1 mem
  · exact hashMix_2 mem

theorem composite_empty_5 (junk : Nat → Nat) :
    composite (dataSuffix 5) (uninit junk 11) []
      = some [47, 53, 0, junk 3, junk 4, junk 5, junk 6, junk 7, junk 8, junk 9, junk 10] := by
  rfl

/-- C14, counterexample. For the empty call sign with suffix code 5 the composite
string is `/5`, of length 2, and `CallSignHash` returns the value 19286. -/
theorem CallSignHash_short_returns :
    composite (dataSuffix 5) (uninit locals0.CallWithSuPrefix 11) []
        = some [47, 53, 0, 170, 170, 170, 170, 170, 170, 170, 170] ∧
      strlenBuf [47, 53, 0, 170, 170, 170, 170, 170, 170, 170, 170] = some 2 ∧
      CallSignHash (dataSuffix 5) locals0.CallWithSuPrefix [] = some 19286 := by
  have hc := composite_empty_5 locals0.CallWithSuPrefix
  have hl : strlenBuf [47, 53, 0, 170, 170, 170, 170, 170, 170, 170, 170] = some 2 := by decide
  refine ⟨hc, hl, ?_⟩
  unfold CallSignHash
  rw [hc]
  simp only [Option.bind_eq_bind, Option.some_bind]
  have hl2 : strlenBuf [47, 53, 0, locals0.CallWithSuPrefix 3, locals0.CallWithSuPrefix 4,
      locals0.CallWithSuPrefix 5, locals0.CallWithSuPrefix 6, locals0.CallWithSuPrefix 7,
      locals0.CallWithSuPrefix 8, locals0.CallWithSuPrefix 9, locals0.CallWithSuPrefix 10]
      = some 2 := hl
  rw [hl2]
  simp only [Option.some_bind, hashMix_2]

/-- C14, amended. `CallSignHash` reports no failure: for every input whose composite
string has length 0, 1 or 2 it returns a value below 65536 that depends on the length
only (12623, 40671 or 19286, the mix of the seed `0xdeadbeef + Length + 146`), and
the type-3 packing goes on with that value. -/
theorem CallSignHash_short (W : S_WSPRData) (o : Obj) (L : Locals) (call buf : List Nat)
    (len : Nat) (hcomp : composite W (uninit L.CallWithSuPrefix 11) call = some buf)
    (hlen : strlenBuf buf = some len) (hL : len ≤ 2) :
    CallSignHash W L.CallWithSuPrefix call = some ([12623, 40671, 19286].getD len 0) ∧
      [12623, 40671, 19286].getD len 0 < 65536 ∧
      pack W o L call 3
        = some (type3N W, type3M ([12623, 40671, 19286].getD len 0) o.power) := by
  have hh : CallSignHash W L.CallWithSuPrefix call
      = some ([12623, 40671, 19286].getD len 0) := by
    unfold CallSignHash
    simp only [hcomp, hlen, Option.bind_eq_bind, Option.some_bind]
    rw [hashMix_short _ len hL]
  refine ⟨hh, ?_, ?_⟩
  · have hL : len = 0 ∨ len = 1 ∨ len = 2 := by omega
    rcases hL with h | h | h <;> subst h <;> decide
  · simp only [pack, Nat.reduceEqDiff, if_false, if_true, hh, Option.map_some']

/-- C14, amended, at the empty call sign with suffix code 5. -/
theorem CallSignHash_short_witness :
    CallSignHash (dataSuffix 5) locals0.CallWithSuPrefix []
        = some ([12623, 40671, 19286].getD 2 0) ∧
      [12623, 40671, 19286].getD 2 0 < 65536 ∧
      pack (dataSuffix 5) obj0 locals0 [] 3
        = some (type3N (dataSuffix 5), type3M ([12623, 40671, 19286].getD 2 0) obj0.power) :=
  CallSignHash_short (dataSuffix 5) obj0 locals0 []
    [47, 53, 0, 170, 170, 170, 170, 170, 170, 170, 170] 2
    (composite_empty_5 locals0.CallWithSuPrefix) (by decide) (by decide)

theorem composite_PJ4 (junk : Nat → Nat) :
    composite (dataPrefix (str "PJ4" ++ [0])) (uninit junk 11) (str "K1ABC")
      = some [80, 74, 52, 47, 75, 49, 65, 66, 67, junk 9, junk 10] := by
  rfl

theorem CallSignHash_PJ4_zero :
    CallSignHash (dataPrefix (str "PJ4" ++ [0])) (fun _ => 0) (str "K1ABC") = some 19735 := by
  have hl : strlenBuf [80, 74, 52, 47, 75, 49, 65, 66, 67, 0, 0] = some 9 := by decide
  unfold CallSignHash
  rw [composite_PJ4]
  simp only [Option.bind_eq_bind, Option.some_bind, hl]
  simp only [hashMix, word, Nat.reduceEqDiff, if_false, if_true]
  decide

theorem CallSignHash_PJ4_X :
    CallSignHash (dataPrefix (str "PJ4" ++ [0])) (fun i => if i = 9 then 88 else 0) (str "K1ABC")
      = some 61691 := by
  have hl : strlenBuf [80, 74, 52, 47, 75, 49, 65, 66, 67, 88, 0] = some 10 := by decide
  unfold CallSignHash
  rw [composite_PJ4]
  simp only [Nat.reduceEqDiff, if_false, if_true, Option.bind_eq_bind, Option.some_bind, hl]
  simp only [hashMix, word, Nat.reduceEqDiff, if_false, if_true]
  decide

theorem CallSignHash_PJ4_AA :
    CallSignHash (dataPrefix (str "PJ4" ++ [0])) (fun _ => 170) (str "K1ABC") = none := by
  have hl : strlenBuf [80, 74, 52, 47, 75, 49, 65, 66, 67, 170, 170] = none := by decide
  unfold CallSignHash
  rw [composite_PJ4]
  simp only [Option.bind_eq_bind, Option.some_bind, hl, Option.none_bind]

/-- C13. On the prefix path `CallSignHash` writes no terminator after the call
sign: for the call sign `K1ABC` and the prefix `PJ4` the buffer holds `PJ4/K1ABC`
followed by the two bytes the array held before.  When these are zero the string
has length 9 and the value is 19735; when they are `X` and zero the string hashed is
`PJ4/K1ABCX`, of length 10, and the value is 61691; when none is zero the string has
no end in the array. -/
theorem CallSignHash_prefix_unterminated (junk : Nat → Nat) :
    composite (dataPrefix (str "PJ4" ++ [0])) (uninit junk 11) (str "K1ABC")
        = some (str "PJ4/K1ABC" ++ [junk 9, junk 10]) ∧
      CallSignHash (dataPrefix (str "PJ4" ++ [0])) (fun _ => 0) (str "K1ABC") = some 19735 ∧
      strlenBuf (str "PJ4/K1ABC" ++ [88, 0]) = some 10 ∧
      CallSignHash (dataPrefix (str "PJ4" ++ [0])) (fun i => if i = 9 then 88 else 0)
        (str "K1ABC") = some 61691 ∧
      CallSignHash (dataPrefix (str "PJ4" ++ [0])) (fun _ => 170) (str "K1ABC") = none :=
  ⟨composite_PJ4 junk, CallSignHash_PJ4_zero, by decide, CallSignHash_PJ4_X, CallSignHash_PJ4_AA⟩

/-! ## The input string of the call sign hash -/

theorem tens_eq : ∀ (fuel t n : Nat), n < 10 * fuel → t + n / 10 < 256 →
    tens fuel (t, n) = (t + n / 10, n % 10) := by
  intro fuel
  induction fuel with
  | zero => intro t n h _; omega
  | succ fuel ih =>
    intro t n h h256
    unfold tens
    by_cases h9 : n > 9
    · simp only [h9, if_true]
      rw [show (t + 1) % 256 = t + 1 by omega, ih (t + 1) (n - 10) (by omega) (by omega)]
      congr 1 <;> omega
    · simp only [h9, if_false]
      congr 1 <;> omega

theorem store_append (l r : List Nat) (j v : Nat) (hj : j < r.length) :
    store (l ++ r) (l.length + j) v = some (l ++ r.set j v) := by
  unfold store
  rw [if_pos (by rw [List.length_append]; omega), List.set_append, if_neg (by omega),
    Nat.add_sub_cancel_left]

theorem cstr_of_ne_zero (l r : List Nat) (h : ∀ x ∈ l, x ≠ 0) : cstr (l ++ 0 :: r) = l := by
  unfold cstr
  induction l with
  | nil => simp [List.takeWhile]
  | cons a l ih =>
    have ha : a ≠ 0 := h a (List.mem_cons_self _ _)
    simp only [List.cons_append, List.takeWhile_cons, bne_iff_ne, ne_eq, ha, not_false_eq_true,
      if_true]
    rw [ih (fun x hx => h x (List.mem_cons_of_mem _ hx))]

theorem cstr_self (l : List Nat) (h : ∀ x ∈ l, x ≠ 0) : cstr l = l := by
  unfold cstr
  induction l with
  | nil => rfl
  | cons a l ih =>
    have ha : a ≠ 0 := h a (List.mem_cons_self _ _)
    simp only [List.takeWhile_cons, bne_iff_ne, ne_eq, ha, not_false_eq_true, if_true]
    rw [ih (fun x hx => h x (List.mem_cons_of_mem _ hx))]

theorem drop_uninit (junk : Nat → Nat) (k : Nat) (hk : k ≤ 6) :
    ∃ r0 r1 r2 r3 R, (uninit junk 11).drop (k + 1) = r0 :: r1 :: r2 :: r3 :: R := by
  have h : 4 ≤ ((uninit junk 11).drop (k + 1)).length := by
    rw [List.length_drop, length_uninit]; omega
  match (uninit junk 11).drop (k + 1), h with
  | r0 :: r1 :: r2 :: r3 :: R, _ => exact ⟨_, _, _, _, _, rfl⟩

theorem store_0 (l r : List Nat) (x v : Nat) :
    store (l ++ x :: r) l.length v = some (l ++ v :: r) := by
  have := store_append l (x :: r) 0 v (by simp)
  simpa using this

theorem store_1 (l r : List Nat) (x0 x1 v : Nat) :
    store (l ++ x0 :: x1 :: r) (l.length + 1) v = some (l ++ x0 :: v :: r) := by
  have := store_append l (x0 :: x1 :: r) 1 v (by simp)
  simpa using this

theorem store_2 (l r : List Nat) (x0 x1 x2 v : Nat) :
    store (l ++ x0 :: x1 :: x2 :: r) (l.length + 2) v = some (l ++ x0 :: x1 :: v :: r) := by
  have := store_append l (x0 :: x1 :: x2 :: r) 2 v (by simp)
  simpa using this

theorem store_3 (l r : List Nat) (x0 x1 x2 x3 v : Nat) :
    store (l ++ x0 :: x1 :: x2 :: x3 :: r) (l.length + 3) v
      = some (l ++ x0 :: x1 :: x2 :: v :: r) := by
  have := store_append l (x0 :: x1 :: x2 :: x3 :: r) 3 v (by simp)
  simpa using this

/-- With the suffix flag set, for a call sign of at most 6 characters and a suffix
code in 0..81, the buffer of `CallSignHash` holds the call sign, `/`, the suffix
text and the terminator. -/
theorem composite_suffixPath (W : S_WSPRData) (junk : Nat → Nat) (call : List Nat)
    (hflag : W.SufixPrefix ≠ 0) (hs : W.Sufix ≤ 81) (hnul : ∀ x ∈ call, x ≠ 0)
    (hlen : call.length ≤ 6) :
    ∃ rest, composite W (uninit junk 11) call
      = some (call ++ 47 :: (suffixText W.Sufix ++ 0 :: rest)) := by
  have hc : cstr call = call := cstr_self call hnul
  have hl : strlen call = call.length := by unfold strlen; rw [hc]
  obtain ⟨r0, r1, r2, r3, R, hR⟩ := drop_uninit junk call.length hlen
  have hk : call.length % 256 = call.length := by omega
  unfold composite
  rw [strcpy_some _ _ (by rw [length_uninit, hl]; omega), hl, hc, hR, hk]
  simp only [Option.bind_eq_bind, Option.some_bind, hflag, ne_eq, not_false_eq_true, if_true,
    store_0]
  by_cases h36 : W.Sufix < 36
  · simp only [h36, if_true, store_2, Option.some_bind]
    by_cases h10 : W.Sufix < 10
    · refine ⟨r2 :: r3 :: R, ?_⟩
      simp only [h10, if_true, store_1, suffixText]
      have : u8 (48 + (W.Sufix : Int)) = 48 + W.Sufix := by unfold u8; omega
      rw [this]
      rfl
    · refine ⟨r2 :: r3 :: R, ?_⟩
      simp only [h10, if_false, store_1, suffixText, h36, if_true]
      have : u8 (65 + ((W.Sufix : Int) - 10)) = 65 + (W.Sufix - 10) := by unfold u8; omega
      rw [this]
      rfl
  · refine ⟨r3 :: R, ?_⟩
    have hN : u8 ((W.Sufix : Int) - 36) = W.Sufix - 36 := by unfold u8; omega
    have ht := tens_eq 26 0 (W.Sufix - 36) (by omega) (by omega)
    have h10 : ¬ W.Sufix < 10 := by omega
    simp only [h36, if_false, hN, ht, Nat.zero_add, store_1, store_2, store_3, Option.some_bind,
      suffixText, h10]
    have e1 : u8 (48 + (((W.Sufix - 36) / 10 : Nat) : Int)) = 48 + (W.Sufix - 36) / 10 := by
      unfold u8; omega
    have e2 : u8 (48 + (((W.Sufix - 36) % 10 : Nat) : Int)) = 48 + (W.Sufix - 36) % 10 := by
      unfold u8; omega
    rw [e1, e2]
    rfl

theorem suffixText_ne_zero (s : Nat) : ∀ x ∈ suffixText s, x ≠ 0 := by
  intro x hx
  unfold suffixText at hx
  split_ifs at hx <;> simp only [List.mem_cons, List.mem_singleton, List.not_mem_nil, or_false]
    at hx <;> omega

/-- With the suffix flag set, for a call sign of at most 6 characters and a suffix
code in 0..81, `CallSignHash` returns the mix of the string `call + "/" + suffixText`
with its length. -/
theorem CallSignHash_suffix (W : S_WSPRData) (junk : Nat → Nat) (call : List Nat)
    (hflag : W.SufixPrefix ≠ 0) (hs : W.Sufix ≤ 81) (hnul : ∀ x ∈ call, x ≠ 0)
    (hlen : call.length ≤ 6) :
    ∃ buf, composite W (uninit junk 11) call = some buf ∧
      cstr buf = call ++ 47 :: suffixText W.Sufix ∧
      CallSignHash W junk call
        = some (hashMix (fun i => if i < 11 then buf.getD i 0 else junk i)
            (call.length + 1 + (suffixText W.Sufix).length)) := by
  obtain ⟨rest, hcomp⟩ := composite_suffixPath W junk call hflag hs hnul hlen
  have hshape : call ++ 47 :: (suffixText W.Sufix ++ 0 :: rest)
      = (call ++ 47 :: suffixText W.Sufix) ++ 0 :: rest := by simp
  have hne : ∀ x ∈ call ++ 47 :: suffixText W.Sufix, x ≠ 0 := by
    intro x hx
    rw [List.mem_append, List.mem_cons] at hx
    rcases hx with hx | hx | hx
    · exact hnul x hx
    · omega
    · exact suffixText_ne_zero _ x hx
  have hcstr : cstr (call ++ 47 :: (suffixText W.Sufix ++ 0 :: rest))
      = call ++ 47 :: suffixText W.Sufix := by
    rw [hshape]; exact cstr_of_ne_zero _ _ hne
  have hstrlen : strlenBuf (call ++ 47 :: (suffixText W.Sufix ++ 0 :: rest))
      = some (call.length + 1 + (suffixText W.Sufix).length) := by
    unfold strlenBuf strlen
    rw [hcstr, if_pos (by simp)]
    simp only [List.length_append, List.length_cons]
    congr 1; omega
  refine ⟨_, hcomp, hcstr, ?_⟩
  unfold CallSignHash
  rw [hcomp]
  simp only [Option.bind_eq_bind, Option.some_bind, hstrlen]

theorem uninit_11 (junk : Nat → Nat) :
    uninit junk 11 = [junk 0, junk 1, junk 2, junk 3, junk 4, junk 5, junk 6, junk 7, junk 8,
      junk 9, junk 10] := rfl

/-- With the suffix flag clear, for a call sign of at most 6 characters, the buffer
of `CallSignHash` holds the three prefix characters, `/` and the call sign, followed
by the bytes the array held before: no terminator is written. -/
theorem composite_prefixPath (W : S_WSPRData) (junk : Nat → Nat) (call : List Nat)
    (hflag : W.SufixPrefix = 0) (hnul : ∀ x ∈ call, x ≠ 0) (hlen : call.length ≤ 6) :
    composite W (uninit junk 11) call
      = some (W.Prefix.getD 0 0 :: W.Prefix.getD 1 0 :: W.Prefix.getD 2 0 :: 47 ::
          (call ++ (uninit junk 11).drop (call.length + 4))) := by
  have hc : cstr call = call := cstr_self call hnul
  have hl : strlen call = call.length := by unfold strlen; rw [hc]
  unfold composite
  rw [strcpy_some _ _ (by rw [length_uninit, hl]; omega), hl, hc, uninit_11]
  simp only [hflag, ne_eq, not_true_eq_false, if_false]
  match call, hlen with
  | [], _ => rfl
  | [a0], _ => rfl
  | [a0, a1], _ => rfl
  | [a0, a1, a2], _ => rfl
  | [a0, a1, a2, a3], _ => rfl
  | [a0, a1, a2, a3, a4], _ => rfl
  | [a0, a1, a2, a3, a4, a5], _ => rfl

/-! ## Linearity of the convolutional encoder -/

theorem xorUpTo_xor (f g : Nat → Bool) (n : Nat) :
    xorUpTo (fun k => xor (f k) (g k)) n = xor (xorUpTo f n) (xorUpTo g n) := by
  induction n with
  | zero => rfl
  | succ n ih =>
    simp only [xorUpTo, ih]
    cases xorUpTo f n <;> cases xorUpTo g n <;> cases f n <;> cases g n <;> rfl

theorem xorUpTo_false (n : Nat) : xorUpTo (fun _ => false) n = false := by
  induction n with
  | zero => rfl
  | succ n ih => simp only [xorUpTo, ih]; rfl

theorem bit_xor (x y k : Nat) : (x ^^^ y) / 2 ^ k % 2 = (x / 2 ^ k % 2) ^^^ (y / 2 ^ k % 2) := by
  have h := Nat.testBit_xor x y k
  simp only [Nat.testBit_to_div_mod] at h
  have hx := Nat.mod_lt (x / 2 ^ k) (show 0 < 2 by decide)
  have hy := Nat.mod_lt (y / 2 ^ k) (show 0 < 2 by decide)
  have hz := Nat.mod_lt ((x ^^^ y) / 2 ^ k) (show 0 < 2 by decide)
  have hx2 : x / 2 ^ k % 2 = 0 ∨ x / 2 ^ k % 2 = 1 := by omega
  have hy2 : y / 2 ^ k % 2 = 0 ∨ y / 2 ^ k % 2 = 1 := by omega
  have hz2 : (x ^^^ y) / 2 ^ k % 2 = 0 ∨ (x ^^^ y) / 2 ^ k % 2 = 1 := by omega
  rcases hx2 with hx2 | hx2 <;> rcases hy2 with hy2 | hy2 <;> rcases hz2 with hz2 | hz2 <;>
    simp [hx2, hy2, hz2] at h ⊢

theorem getD_xorBytes (c1 c2 : List Nat) (h : c1.length = c2.length) (i : Nat) :
    (xorBytes c1 c2).getD i 0 = c1.getD i 0 ^^^ c2.getD i 0 := by
  unfold xorBytes
  simp only [List.getD_eq_getElem?_getD, List.getElem?_zipWith]
  by_cases hi : i < c1.length
  · have hi2 : i < c2.length := by omega
    simp [List.getElem?_eq_getElem hi, List.getElem?_eq_getElem hi2]
  · have hi2 : ¬ i < c2.length := by omega
    simp [List.getElem?_eq_none (Nat.le_of_not_lt hi), List.getElem?_eq_none (Nat.le_of_not_lt hi2)]

theorem msgBit_xorBytes (c1 c2 : List Nat) (h : c1.length = c2.length) (t : Nat) :
    msgBit (xorBytes c1 c2) t = msgBit c1 t ^^^ msgBit c2 t := by
  unfold msgBit
  rw [getD_xorBytes c1 c2 h, bit_xor]

theorem tapXor_xor (taps : Nat) (b1 b2 : Nat → Nat) (hb1 : ∀ t, b1 t < 2) (hb2 : ∀ t, b2 t < 2)
    (t : Nat) :
    tapXor taps (fun u => b1 u ^^^ b2 u) t = tapXor taps b1 t ^^^ tapXor taps b2 t := by
  have hb : ∀ u, (fun u => b1 u ^^^ b2 u) u < 2 := by
    intro u
    have h1 := hb1 u
    have h2 := hb2 u
    have e1 : b1 u = 0 ∨ b1 u = 1 := by omega
    have e2 : b2 u = 0 ∨ b2 u = 1 := by omega
    rcases e1 with e1 | e1 <;> rcases e2 with e2 | e2 <;> simp [e1, e2]
  rw [tapXor_eq_xorUpTo taps _ hb, tapXor_eq_xorUpTo taps b1 hb1, tapXor_eq_xorUpTo taps b2 hb2,
    toNat_xor, ← xorUpTo_xor]
  congr 1
  apply xorUpTo_congr
  intro k _
  have h1 := hb1 (t - k)
  have h2 := hb2 (t - k)
  have e1 : b1 (t - k) = 0 ∨ b1 (t - k) = 1 := by omega
  have e2 : b2 (t - k) = 0 ∨ b2 (t - k) = 1 := by omega
  rcases e1 with e1 | e1 <;> rcases e2 with e2 | e2 <;> simp [e1, e2]

theorem getD_convolve (c s : List Nat) (hs : 162 ≤ s.length) (i : Nat) (hi : i < 162) :
    (convolve c s 11 162).getD i 0
      = tapXor (if i % 2 = 0 then 0xF2D05351 else 0xE4613C47) (msgBit c) (i / 2) := by
  rw [convolve_eq c s hs, List.getD_append _ _ _ _ (by rw [length_convSpec]; exact hi),
    List.getD_eq_getElem?_getD]
  simp only [convSpec, List.getElem?_map, List.getElem?_range hi, Option.map_some',
    Option.getD_some]

set_option maxRecDepth 100000 in
theorem convSpec_zero : convSpec (List.replicate 11 0) = List.replicate 162 0 := by
  decide

/-- C19. The convolutional encoder is linear over GF(2): for all 11-byte buffers
`c1` and `c2`, `convolve` on their bytewise XOR yields at each of the 162 positions
the XOR of the outputs of `convolve` on `c1` and on `c2`, and `convolve` on the
all-zero buffer yields 162 zeros. -/
theorem convolve_linear (c1 c2 s1 s2 s3 s4 : List Nat) (h1 : c1.length = 11)
    (h2 : c2.length = 11) (hs1 : 162 ≤ s1.length) (hs2 : 162 ≤ s2.length)
    (hs3 : 162 ≤ s3.length) (hs4 : 162 ≤ s4.length) :
    (∀ i, i < 162 →
      (convolve (xorBytes c1 c2) s3 11 162).getD i 0
        = (convolve c1 s1 11 162).getD i 0 ^^^ (convolve c2 s2 11 162).getD i 0) ∧
    (convolve (List.replicate 11 0) s4 11 162).take 162 = List.replicate 162 0 := by
  constructor
  · intro i hi
    rw [getD_convolve _ _ hs3 i hi, getD_convolve _ _ hs1 i hi, getD_convolve _ _ hs2 i hi,
      ← tapXor_xor _ _ _ (msgBit_lt c1) (msgBit_lt c2)]
    congr 1
    funext u
    exact msgBit_xorBytes c1 c2 (by rw [h1, h2]) u
  · rw [convolve_eq _ _ hs4, convSpec_zero, List.take_append_of_le_length (by simp)]
    simp

/-- C19, at the payload of ` K1ABC FN42 37`, the all-ones payload and position 47. -/
theorem convolve_linear_witness :
    (convolve (xorBytes [0xF7, 0x0C, 0x23, 0x8B, 0x0D, 0x19, 0x40, 0, 0, 0, 0]
        (List.replicate 11 255)) (List.replicate 162 7) 11 162).getD 47 0
      = (convolve [0xF7, 0x0C, 0x23, 0x8B, 0x0D, 0x19, 0x40, 0, 0, 0, 0]
          (List.replicate 162 7) 11 162).getD 47 0
        ^^^ (convolve (List.replicate 11 255) (List.replicate 162 7) 11 162).getD 47 0 :=
  (convolve_linear [0xF7, 0x0C, 0x23, 0x8B, 0x0D, 0x19, 0x40, 0, 0, 0, 0] (List.replicate 11 255)
    (List.replicate 162 7) (List.replicate 162 7) (List.replicate 162 7) (List.replicate 162 7)
    (by decide) (by simp) (by simp) (by simp) (by simp) (by simp)).1 47 (by decide)

/-! ## The encoder, every message type -/

theorem parityStream_eq (L : Locals) (n m : Nat) :
    parityStream L n m
      = interleaveSrc.map (fun k => (convSpec (serialise (uninit L.c 11) n m)).getD k 0) := by
  have hsl : (uninit L.s 162).length = 162 := length_uninit _ _
  simp only [parityStream, WSPR_SYMBOL_COUNT]
  rw [convolve_eq _ _ (by rw [hsl]), List.drop_of_length_le (by rw [hsl]), List.append_nil,
    interleave_eq _ _ (length_uninit _ _),
    List.drop_of_length_le (by rw [length_convSpec]), List.append_nil]

/-- The result of `encode` for every message type, from the result of the packing
`switch`. -/
theorem encode_eq (W : S_WSPRData) (o : Obj) (L : Locals) (call loc : List Nat) (dbm : Nat)
    (symbols : List Nat) (ty : Nat) (hcall : strlen call ≤ 6) (hloc : strlen loc ≤ 4)
    (hs : 162 ≤ symbols.length) :
    encode W o L call loc dbm symbols ty =
      (pack W (prepared o L call loc dbm) L call ty).map (fun nm =>
        (prepared o L call loc dbm,
          channel (serialise (uninit L.c 11) nm.1 nm.2) ++ symbols.drop 162)) := by
  unfold encode
  rw [strcpy_some _ _ (by rw [length_uninit]; omega),
    strcpy_some _ _ (by rw [length_uninit]; omega)]
  simp only [Option.bind_eq_bind, Option.some_bind, symbols_eq_channel _ _ _ _ hs]
  show Option.bind (pack W (prepared o L call loc dbm) L call ty) _ = _
  cases pack W (prepared o L call loc dbm) L call ty <;> rfl

theorem channel_getD (c : List Nat) (symbols : List Nat) (i : Nat) (hi : i < 162) :
    (channel c ++ symbols.drop 162).getD i 0
      = sync_vector.getD i 0 + 2 * (convSpec c).getD (interleaveSrc.getD i 0) 0 := by
  rw [List.getD_append _ _ _ _ (by rw [length_channel]; exact hi), List.getD_eq_getElem?_getD]
  simp only [channel, List.getElem?_map, List.getElem?_range hi, Option.map_some',
    Option.getD_some]
  have h1 := getD_le_of_forall sync_vector 1 sync_vector_le i
  have h2 := getD_le_of_forall (convSpec c) 1 (convSpec_le c) (interleaveSrc.getD i 0)
  omega

theorem pack_isSome (W : S_WSPRData) (o : Obj) (L : Locals) (call : List Nat) (ty : Nat) :
    (ty ≠ 3 → (pack W o L call ty).isSome = true) ∧
    (ty = 3 → (pack W o L call ty).isSome = (CallSignHash W L.CallWithSuPrefix call).isSome) := by
  constructor
  · intro h
    unfold pack
    split_ifs <;> rfl
  · intro h
    subst h
    simp only [pack, Nat.reduceEqDiff, if_false, if_true, Option.isSome_map']

/-- C17. Sync merge, for every message type: a call of `encode` returns for every
type other than 3, and for type 3 exactly when `CallSignHash` does; whenever it
returns, for every `i` in 0..161, `symbols[i] = sync_vector[i] + 2*g[i]` where `g` is
the interleaved parity stream of the packed values, `g[i]` is 0 or 1,
`symbols[i] mod 2 = sync_vector[i]` and `symbols[i] div 2 = g[i]`. -/
theorem encode_sync_merge (W : S_WSPRData) (o : Obj) (L : Locals) (call loc : List Nat)
    (dbm : Nat) (symbols : List Nat) (ty : Nat) (hcall : strlen call ≤ 6) (hloc : strlen loc ≤ 4)
    (hs : 162 ≤ symbols.length) :
    (ty ≠ 3 → (encode W o L call loc dbm symbols ty).isSome = true) ∧
    (ty = 3 → (encode W o L call loc dbm symbols ty).isSome
      = (CallSignHash W L.CallWithSuPrefix call).isSome) ∧
    ∀ o1 out, encode W o L call loc dbm symbols ty = some (o1, out) →
      ∃ n m, pack W o1 L call ty = some (n, m) ∧
        ∀ i, i < 162 →
          out.getD i 0 = sync_vector.getD i 0 + 2 * (parityStream L n m).getD i 0 ∧
          (parityStream L n m).getD i 0 ≤ 1 ∧
          out.getD i 0 % 2 = sync_vector.getD i 0 ∧
          out.getD i 0 / 2 = (parityStream L n m).getD i 0 := by
  have henc := encode_eq W o L call loc dbm symbols ty hcall hloc hs
  have hp := pack_isSome W (prepared o L call loc dbm) L call ty
  refine ⟨?_, ?_, ?_⟩
  · intro h
    rw [henc, Option.isSome_map']
    exact hp.1 h
  · intro h
    rw [henc, Option.isSome_map']
    exact hp.2 h
  · intro o1 out hres
    rw [henc] at hres
    cases hpk : pack W (prepared o L call loc dbm) L call ty with
    | none => rw [hpk] at hres; exact absurd hres (by simp)
    | some nm =>
      rw [hpk, Option.map_some', Option.some.injEq, Prod.mk.injEq] at hres
      obtain ⟨ho, hout⟩ := hres
      subst ho
      refine ⟨nm.1, nm.2, hpk, ?_⟩
      intro i hi
      have hg : (parityStream L nm.1 nm.2).getD i 0
          = (convSpec (serialise (uninit L.c 11) nm.1 nm.2)).getD (interleaveSrc.getD i 0) 0 := by
        rw [parityStream_eq, getD_map_lt _ _ _ (by rw [length_interleaveSrc]; exact hi)]
      have hsym := channel_getD (serialise (uninit L.c 11) nm.1 nm.2) symbols i hi
      rw [hout] at hsym
      have h1 := getD_le_of_forall sync_vector 1 sync_vector_le i
      have h2 := getD_le_of_forall (convSpec (serialise (uninit L.c 11) nm.1 nm.2)) 1
        (convSpec_le _) (interleaveSrc.getD i 0)
      rw [hg, hsym]
      refine ⟨rfl, h2, ?_, ?_⟩ <;> omega

/-- C17, at the type-3 message of `K1ABC` with suffix code 1, which `encode`
returns. -/
theorem encode_sync_merge_witness :
    (encode dataSuffix1 obj0 locals0 (str "K1ABC") (str "FN42") 37
      (List.replicate 162 0) 3).isSome = true ∧
    (3 ≠ 3 → (encode dataSuffix1 obj0 locals0 (str "K1ABC") (str "FN42") 37
      (List.replicate 162 0) 3).isSome = true) ∧
    (3 = 3 → (encode dataSuffix1 obj0 locals0 (str "K1ABC") (str "FN42") 37
      (List.replicate 162 0) 3).isSome
      = (CallSignHash dataSuffix1 locals0.CallWithSuPrefix (str "K1ABC")).isSome) ∧
    ∀ o1 out, encode dataSuffix1 obj0 locals0 (str "K1ABC") (str "FN42") 37
        (List.replicate 162 0) 3 = some (o1, out) →
      ∃ n m, pack dataSuffix1 o1 locals0 (str "K1ABC") 3 = some (n, m) ∧
        ∀ i, i < 162 →
          out.getD i 0 = sync_vector.getD i 0 + 2 * (parityStream locals0 n m).getD i 0 ∧
          (parityStream locals0 n m).getD i 0 ≤ 1 ∧
          out.getD i 0 % 2 = sync_vector.getD i 0 ∧
          out.getD i 0 / 2 = (parityStream locals0 n m).getD i 0 :=
  ⟨((encode_sync_merge dataSuffix1 obj0 locals0 (str "K1ABC") (str "FN42") 37
      (List.replicate 162 0) 3 (by decide) (by decide) (by simp)).2.1 rfl).trans
      (by rw [CallSignHash_K1ABC_1]; rfl),
   encode_sync_merge dataSuffix1 obj0 locals0 (str "K1ABC") (str "FN42") 37
    (List.replicate 162 0) 3 (by decide) (by decide) (by simp)⟩

/-! ## Injectivity of the type-1 packing -/

/-- The value `n` without reduction, when no step of the packing wraps. -/
theorem packN_eq (c0 c1 c2 c3 c4 c5 : Nat) (h0 : code c0 ≤ 36) (h1 : code c1 ≤ 36)
    (h2 : code c2 ≤ 36) (h3 : 10 ≤ code c3 ∧ code c3 ≤ 36) (h4 : 10 ≤ code c4 ∧ code c4 ≤ 36)
    (h5 : 10 ≤ code c5 ∧ code c5 ≤ 36) :
    packN c0 c1 c2 c3 c4 c5 =
      ((((code c0 * 36 + code c1) * 10 + code c2) * 27 + (code c3 - 10)) * 27
        + (code c4 - 10)) * 27 + (code c5 - 10) := by
  have e1 := u32_eq ((code c0 : Int) * 36 + code c1) (code c0 * 36 + code c1)
    (by omega) (by omega)
  have e2 := u32_eq (((code c0 * 36 + code c1 : Nat) : Int) * 10 + code c2)
    ((code c0 * 36 + code c1) * 10 + code c2) (by omega) (by omega)
  have e3 := u32_eq ((((code c0 * 36 + code c1) * 10 + code c2 : Nat) : Int) * 27
    + ((code c3 : Int) - 10)) (((code c0 * 36 + code c1) * 10 + code c2) * 27 + (code c3 - 10))
    (by omega) (by omega)
  have e4 := u32_eq (((((code c0 * 36 + code c1) * 10 + code c2) * 27 + (code c3 - 10) : Nat)
    : Int) * 27 + ((code c4 : Int) - 10))
    ((((code c0 * 36 + code c1) * 10 + code c2) * 27 + (code c3 - 10)) * 27 + (code c4 - 10))
    (by omega) (by omega)
  have e5 := u32_eq ((((((code c0 * 36 + code c1) * 10 + code c2) * 27 + (code c3 - 10)) * 27
    + (code c4 - 10) : Nat) : Int) * 27 + ((code c5 : Int) - 10))
    (((((code c0 * 36 + code c1) * 10 + code c2) * 27 + (code c3 - 10)) * 27
      + (code c4 - 10)) * 27 + (code c5 - 10))
    (by omega) (by omega)
  simp only [packN, e1, e2, e3, e4, e5]

theorem code_inj (a b : Nat) (hb : okChar b = true) (h : code a = code b) : a = b := by
  simp only [okChar, isupper, isdigit, Bool.or_eq_true, Bool.and_eq_true, decide_eq_true_eq]
    at hb
  rw [code_eq, code_eq] at h
  split_ifs at h <;> omega

theorem code_lt_36 (c : Nat) (h : (isdigit c || isupper c) = true) : code c ≤ 35 := by
  simp only [isupper, isdigit, Bool.or_eq_true, Bool.and_eq_true, decide_eq_true_eq] at h
  rw [code_eq]
  split_ifs <;> omega

theorem code_digit (c : Nat) (h : isdigit c = true) : code c ≤ 9 := by
  simp only [isdigit, Bool.and_eq_true, decide_eq_true_eq] at h
  rw [code_eq, if_pos h]
  omega

theorem okChar_of_isdigit (c : Nat) (h : isdigit c = true) : okChar c = true := by
  simp [okChar, h]

theorem okChar_of_alnum (c : Nat) (h : (isdigit c || isupper c) = true) : okChar c = true := by
  rw [Bool.or_eq_true] at h
  rcases h with h | h <;> simp [okChar, h]

theorem okChar_of_letter_or_space (c : Nat) (h : (isupper c || decide (c = 32)) = true) :
    okChar c = true := by
  rw [Bool.or_eq_true] at h
  rcases h with h | h
  · simp [okChar, h]
  · simp only [decide_eq_true_eq] at h
    subst h; decide

/-- The packed values `n` and `m` are determined by the payload. -/
theorem serialise_inj (c1 c2 : List Nat) (hc1 : c1.length = 11) (hc2 : c2.length = 11)
    (n1 m1 n2 m2 : Nat) (hn1 : n1 < 2 ^ 28) (hm1 : m1 < 2 ^ 22) (hn2 : n2 < 2 ^ 28)
    (hm2 : m2 < 2 ^ 22) (h : serialise c1 n1 m1 = serialise c2 n2 m2) : n1 = n2 ∧ m1 = m2 := by
  rw [serialise_eq c1 hc1, serialise_eq c2 hc2] at h
  simp only [List.cons.injEq, and_true] at h
  obtain ⟨e0, e1, e2, e3, e4, e5, e6⟩ := h
  constructor <;> omega

theorem length_eq_6 {c : List Nat} (h : c.length = 6) :
    ∃ a0 a1 a2 a3 a4 a5, c = [a0, a1, a2, a3, a4, a5] := by
  match c, h with
  | [a0, a1, a2, a3, a4, a5], _ => exact ⟨_, _, _, _, _, _, rfl⟩

theorem length_eq_4 {c : List Nat} (h : c.length = 4) : ∃ a0 a1 a2 a3, c = [a0, a1, a2, a3] := by
  match c, h with
  | [a0, a1, a2, a3], _ => exact ⟨_, _, _, _, rfl⟩

/-- The value `n` determines a call sign of the well-formed shape. -/
theorem callN_inj (cs1 cs2 : List Nat) (h1 : callForm cs1 = true) (h2 : callForm cs2 = true)
    (h : callN cs1 = callN cs2) : cs1 = cs2 := by
  simp only [callForm, Bool.and_eq_true, decide_eq_true_eq] at h1 h2
  obtain ⟨⟨⟨⟨⟨⟨hl1, a0⟩, a1⟩, a2⟩, a3⟩, a4⟩, a5⟩ := h1
  obtain ⟨⟨⟨⟨⟨⟨hl2, b0⟩, b1⟩, b2⟩, b3⟩, b4⟩, b5⟩ := h2
  obtain ⟨x0, x1, x2, x3, x4, x5, rfl⟩ := length_eq_6 hl1
  obtain ⟨y0, y1, y2, y3, y4, y5, rfl⟩ := length_eq_6 hl2
  simp only [List.getD_cons_zero, List.getD_cons_succ] at a0 a1 a2 a3 a4 a5 b0 b1 b2 b3 b4 b5
  simp only [callN, List.getD_cons_zero, List.getD_cons_succ] at h
  have p0 := code_le_of_okChar _ a0
  have p1 := code_lt_36 _ a1
  have p2 := code_digit _ a2
  have p3 := code_of_letter_or_space _ a3
  have p4 := code_of_letter_or_space _ a4
  have p5 := code_of_letter_or_space _ a5
  have q0 := code_le_of_okChar _ b0
  have q1 := code_lt_36 _ b1
  have q2 := code_digit _ b2
  have q3 := code_of_letter_or_space _ b3
  have q4 := code_of_letter_or_space _ b4
  have q5 := code_of_letter_or_space _ b5
  rw [packN_eq _ _ _ _ _ _ p0 (by omega) (by omega) p3 p4 p5,
    packN_eq _ _ _ _ _ _ q0 (by omega) (by omega) q3 q4 q5] at h
  have e0 : code x0 = code y0 := by omega
  have e1 : code x1 = code y1 := by omega
  have e2 : code x2 = code y2 := by omega
  have e3 : code x3 = code y3 := by omega
  have e4 : code x4 = code y4 := by omega
  have e5 : code x5 = code y5 := by omega
  rw [code_inj _ _ b0 e0, code_inj _ _ (okChar_of_alnum _ b1) e1,
    code_inj _ _ (okChar_of_isdigit _ b2) e2, code_inj _ _ (okChar_of_letter_or_space _ b3) e3,
    code_inj _ _ (okChar_of_letter_or_space _ b4) e4,
    code_inj _ _ (okChar_of_letter_or_space _ b5) e5]

theorem locForm_head (l : List Nat) (h : locForm l = true) :
    locHead l = true ∧ validLoc (l.getD 3 0) = true := by
  simp only [locForm, Bool.and_eq_true] at h
  obtain ⟨⟨⟨⟨_, h0⟩, h1⟩, h2⟩, h3⟩ := h
  constructor
  · simp only [locHead, Bool.and_eq_true]
    exact ⟨⟨h0, h1⟩, h2⟩
  · unfold validLoc; rw [h3]; rfl

/-- The value `m` determines a locator of the well-formed shape and the power. -/
theorem type1M_inj (l1 l2 : List Nat) (p1 p2 : Nat) (h1 : locForm l1 = true)
    (h2 : locForm l2 = true) (hp1 : p1 ≤ 60) (hp2 : p2 ≤ 60)
    (h : type1M l1 p1 = type1M l2 p2) : l1 = l2 ∧ p1 = p2 := by
  obtain ⟨g1, v1⟩ := locForm_head l1 h1
  obtain ⟨g2, v2⟩ := locForm_head l2 h2
  rw [type1M_eq l1 p1 g1 v1 (by omega), type1M_eq l2 p2 g2 v2 (by omega)] at h
  simp only [locForm, isdigit, Bool.and_eq_true, decide_eq_true_eq] at h1 h2
  obtain ⟨⟨⟨⟨hl1, a0⟩, a1⟩, a2⟩, a3⟩ := h1
  obtain ⟨⟨⟨⟨hl2, b0⟩, b1⟩, b2⟩, b3⟩ := h2
  obtain ⟨x0, x1, x2, x3, rfl⟩ := length_eq_4 hl1
  obtain ⟨y0, y1, y2, y3, rfl⟩ := length_eq_4 hl2
  simp only [List.getD_cons_zero, List.getD_cons_succ] at a0 a1 a2 a3 b0 b1 b2 b3 h
  have e0 : x0 = y0 := by omega
  have e1 : x1 = y1 := by omega
  have e2 : x2 = y2 := by omega
  have e3 : x3 = y3 := by omega
  have e4 : p1 = p2 := by omega
  subst e0 e1 e2 e3 e4
  exact ⟨rfl, rfl⟩

/-- C18. Type-1 packing is injective on well-formed messages: for two triples of a
call sign of the form `[0-9A-Z ][0-9A-Z][0-9][A-Z ][A-Z ][A-Z ]`, a locator of the
form `[A-R][A-R][0-9][0-9]` and a power in 0..60, if the 11-byte payloads that the
type-1 packing and the serialisation build are equal, then the triples are equal. -/
theorem type1_payload_injective (c1 c2 cs1 cs2 l1 l2 : List Nat) (p1 p2 : Nat)
    (hc1 : c1.length = 11) (hc2 : c2.length = 11)
    (hcs1 : callForm cs1 = true) (hcs2 : callForm cs2 = true)
    (hl1 : locForm l1 = true) (hl2 : locForm l2 = true) (hp1 : p1 ≤ 60) (hp2 : p2 ≤ 60)
    (h : serialise c1 (callN cs1) (type1M l1 p1) = serialise c2 (callN cs2) (type1M l2 p2)) :
    cs1 = cs2 ∧ l1 = l2 ∧ p1 = p2 := by
  have hn : ∀ cs, callForm cs = true → callN cs < 2 ^ 28 := by
    intro cs hcs
    simp only [callForm, Bool.and_eq_true, decide_eq_true_eq] at hcs
    obtain ⟨⟨⟨⟨⟨⟨_, a0⟩, a1⟩, a2⟩, a3⟩, a4⟩, a5⟩ := hcs
    exact packN_lt _ _ _ _ _ _ (code_le_of_okChar _ a0)
      (code_le_of_okChar _ (okChar_of_alnum _ a1))
      (code_le_of_okChar _ (okChar_of_isdigit _ a2))
      (code_of_letter_or_space _ a3) (code_of_letter_or_space _ a4)
      (code_of_letter_or_space _ a5)
  have hm : ∀ l p, locForm l = true → p ≤ 60 → type1M l p < 2 ^ 22 := by
    intro l p hl hp
    obtain ⟨g, v⟩ := locForm_head l hl
    exact type1M_lt l p g v hp
  obtain ⟨en, em⟩ := serialise_inj c1 c2 hc1 hc2 _ _ _ _ (hn cs1 hcs1) (hm l1 p1 hl1 hp1)
    (hn cs2 hcs2) (hm l2 p2 hl2 hp2) h
  obtain ⟨el, ep⟩ := type1M_inj l1 l2 p1 p2 hl1 hl2 hp1 hp2 em
  exact ⟨callN_inj cs1 cs2 hcs1 hcs2 en, el, ep⟩

/-- C18, at the message ` K1ABC FN42 37` and two buffers of different initial
content. -/
theorem type1_payload_injective_witness :
    callForm (str " K1ABC") = true ∧ locForm (str "FN42") = true ∧
      serialise (List.replicate 11 0) (callN (str " K1ABC")) (type1M (str "FN42") 37)
        = serialise (List.replicate 11 170) (callN (str " K1ABC")) (type1M (str "FN42") 37) ∧
      str " K1ABC" = str " K1ABC" ∧ str "FN42" = str "FN42" ∧ 37 = 37 :=
  ⟨by decide, by decide, by decide, type1_payload_injective (List.replicate 11 0) (List.replicate 11 170) (str " K1ABC")
    (str " K1ABC") (str "FN42") (str "FN42") 37 37 (by decide) (by decide) (by decide)
    (by decide) (by decide) (by decide) (by decide) (by decide) (by decide)⟩

end WSPR
